import Mathlib

/-!
Verification of the Feynman Learning System's context-budget and
state-continuity subsystem, against the source under `src/`.

JavaScript strings are modelled as lists of natural numbers (UTF-16 code
units; every string handled here stays inside the basic multilingual
plane, where code units and code points coincide).  The platform
primitives the source composes (`btoa`/`atob`, `JSON.stringify` /
`JSON.parse`, `String.prototype.split`, regular expressions) are
embedded as executable Lean functions; repository functions
(`encodeState`, `decodeState`, `ContextManager`, `StateManager`,
`PracticeSheetPane` handlers, `ClaudeService.checkAccuracy`) are
translated on top of them, keeping the source names.
-/

/-- A JavaScript string: list of UTF-16 code units. -/
abbrev JsStr := List Nat

/-- Embed a Lean string literal as a JsStr (used only for BMP literals,
where `Char.toNat` is the UTF-16 code unit). -/
def jsStr (s : String) : JsStr := s.toList.map Char.toNat

/-! ## Base64 (`btoa` / `atob`)

`btoa` maps each 3-byte group to 4 alphabet characters with `=` padding
and throws on any code unit above 255 (modelled by `Option`).  `atob`
implements the WHATWG forgiving-base64 decode: strip ASCII whitespace,
strip up to two trailing `=` when the length is a multiple of 4, reject
a remainder of 1 and any character outside the alphabet. -/

/-- ASCII whitespace stripped by forgiving-base64. -/
def isWsA (c : Nat) : Bool := c == 9 || c == 10 || c == 12 || c == 13 || c == 32

/-- Base64 alphabet: sextet to character code. -/
def i2c (n : Nat) : Nat :=
  if n < 26 then 65 + n else if n < 52 then 71 + n
  else if n < 62 then n - 4 else if n = 62 then 43 else 47

/-- Base64 alphabet: character code to sextet (only used on validated input). -/
def c2i (c : Nat) : Nat :=
  if 65 ≤ c ∧ c ≤ 90 then c - 65 else if 97 ≤ c ∧ c ≤ 122 then c - 71
  else if 48 ≤ c ∧ c ≤ 57 then c + 4 else if c = 43 then 62 else 63

/-- Membership in the base64 alphabet (excludes the `=` padding). -/
def isB64 (c : Nat) : Bool :=
  (65 ≤ c && c ≤ 90) || (97 ≤ c && c ≤ 122) || (48 ≤ c && c ≤ 57) || c == 43 || c == 47

/-- Padded base64 encoding of a byte list, 3 bytes to 4 characters. -/
def encB : List Nat → List Nat
  | [] => []
  | [a] => [i2c (a / 4), i2c (a % 4 * 16), 61, 61]
  | [a, b] => [i2c (a / 4), i2c (a % 4 * 16 + b / 16), i2c (b % 16 * 4), 61]
  | a :: b :: c :: r =>
      i2c (a / 4) :: i2c (a % 4 * 16 + b / 16) :: i2c (b % 16 * 4 + c / 64) ::
      i2c (c % 64) :: encB r

/-- Unpadded base64 body (what is left after stripping the `=` padding). -/
def encU : List Nat → List Nat
  | [] => []
  | [a] => [i2c (a / 4), i2c (a % 4 * 16)]
  | [a, b] => [i2c (a / 4), i2c (a % 4 * 16 + b / 16), i2c (b % 16 * 4)]
  | a :: b :: c :: r =>
      i2c (a / 4) :: i2c (a % 4 * 16 + b / 16) :: i2c (b % 16 * 4 + c / 64) ::
      i2c (c % 64) :: encU r

/-- `window.btoa`: fails (DOMException) iff some code unit exceeds 255. -/
def btoa (s : JsStr) : Option JsStr :=
  if s.all (· < 256) then some (encB s) else none

/-- Strip up to two trailing `=` characters (forgiving-base64 step 2). -/
def dropPad (t : JsStr) : JsStr :=
  if t.reverse.take 2 = [61, 61] then (t.reverse.drop 2).reverse
  else if t.reverse.take 1 = [61] then (t.reverse.drop 1).reverse
  else t

/-- Decode a validated base64 body, 4 characters to 3 bytes, with a
final partial group of 2 or 3 characters giving 1 or 2 bytes. -/
def decQ : List Nat → List Nat
  | c1 :: c2 :: c3 :: c4 :: r =>
      (c2i c1 * 4 + c2i c2 / 16) :: (c2i c2 % 16 * 16 + c2i c3 / 4) ::
      (c2i c3 % 4 * 64 + c2i c4) :: decQ r
  | [c1, c2] => [c2i c1 * 4 + c2i c2 / 16]
  | [c1, c2, c3] => [c2i c1 * 4 + c2i c2 / 16, c2i c2 % 16 * 16 + c2i c3 / 4]
  | _ => []

/-- `window.atob`: WHATWG forgiving-base64 decode. -/
def atob (s : JsStr) : Option JsStr :=
  let t := s.filter (fun c => !isWsA c)
  let u := if t.length % 4 == 0 then dropPad t else t
  if u.length % 4 == 1 then none
  else if u.all isB64 then some (decQ u) else none

theorem c2i_i2c : ∀ n < 64, c2i (i2c n) = n := by decide

theorem isB64_i2c : ∀ n < 64, isB64 (i2c n) = true := by decide

theorem i2c_facts : ∀ n < 64, ¬ isWsA (i2c n) ∧ i2c n ≠ 61 ∧ i2c n ≠ 45 ∧ i2c n < 256 := by
  decide

theorem encB_chars {b : List Nat} (hb : ∀ x ∈ b, x < 256) {c : Nat} (hc : c ∈ encB b) :
    (∃ n < 64, c = i2c n) ∨ c = 61 := by
  induction b using encB.induct with
  | case1 => simp [encB] at hc
  | case2 a =>
      have ha : a < 256 := hb a (by simp)
      simp only [encB, List.mem_cons, List.mem_singleton] at hc
      rcases hc with h | h | h | h
      · exact Or.inl ⟨a / 4, by omega, h⟩
      · exact Or.inl ⟨a % 4 * 16, by omega, h⟩
      · exact Or.inr h
      · simp at h; exact Or.inr h
  | case3 a b =>
      have ha : a < 256 := hb a (by simp)
      have hbb : b < 256 := hb b (by simp)
      simp only [encB, List.mem_cons, List.mem_singleton] at hc
      rcases hc with h | h | h | h
      · exact Or.inl ⟨a / 4, by omega, h⟩
      · exact Or.inl ⟨a % 4 * 16 + b / 16, by omega, h⟩
      · exact Or.inl ⟨b % 16 * 4, by omega, h⟩
      · simp at h; exact Or.inr h
  | case4 a b c' r ih =>
      have ha : a < 256 := hb a (by simp)
      have hbb : b < 256 := hb b (by simp)
      have hcc : c' < 256 := hb c' (by simp)
      simp only [encB, List.mem_cons] at hc
      rcases hc with h | h | h | h | h
      · exact Or.inl ⟨a / 4, by omega, h⟩
      · exact Or.inl ⟨a % 4 * 16 + b / 16, by omega, h⟩
      · exact Or.inl ⟨b % 16 * 4 + c' / 64, by omega, h⟩
      · exact Or.inl ⟨c' % 64, by omega, h⟩
      · exact ih (fun x hx => hb x (by simp [hx])) h

theorem encB_filter {b : List Nat} (hb : ∀ x ∈ b, x < 256) :
    (encB b).filter (fun c => !isWsA c) = encB b := by
  apply List.filter_eq_self.mpr
  intro c hc
  rcases encB_chars hb hc with ⟨n, hn, rfl⟩ | rfl
  · simp [(i2c_facts n hn).1]
  · decide

theorem encB_len (b : List Nat) : (encB b).length % 4 = 0 := by
  induction b using encB.induct with
  | case1 => simp [encB]
  | case2 a => simp [encB]
  | case3 a b => simp [encB]
  | case4 a b c r ih => simp [encB]; omega

theorem dropPad_append {q z : List Nat} (hz : 2 ≤ z.length) :
    dropPad (q ++ z) = q ++ dropPad z := by
  have hzr : z.reverse ≠ [] := by
    intro h
    have hlen : z.length = 0 := by simpa using congrArg List.length h
    omega
  obtain ⟨z1, t1, h1⟩ := List.exists_cons_of_ne_nil hzr
  have ht1 : t1 ≠ [] := by
    intro h
    have := congrArg List.length h1
    simp [h] at this
    omega
  obtain ⟨z2, t2, h2⟩ := List.exists_cons_of_ne_nil ht1
  subst h2
  have hQ : (q ++ z).reverse = z1 :: z2 :: (t2 ++ q.reverse) := by
    rw [List.reverse_append, h1]; simp
  unfold dropPad
  rw [hQ, h1]
  simp only [List.take_succ_cons, List.take_zero, List.drop_succ_cons, List.drop_zero]
  split_ifs with hA hB
  · simp
  · simp
  · rfl

theorem encB_len_ge {b : List Nat} (hb : b ≠ []) : 4 ≤ (encB b).length := by
  match b, hb with
  | [a], _ => simp [encB]
  | [a, b'], _ => simp [encB]
  | a :: b' :: c :: r, _ => simp [encB]

theorem i2c_ne_61 (n : Nat) : i2c n ≠ 61 := by
  unfold i2c; split_ifs <;> omega

theorem dropPad_encB (b : List Nat) : dropPad (encB b) = encU b := by
  induction b using encB.induct with
  | case1 => rfl
  | case2 a => simp [encB, encU, dropPad]
  | case3 a b =>
      simp [encB, encU, dropPad, i2c_ne_61]
  | case4 a b c r ih =>
      rcases eq_or_ne r [] with rfl | hr
      · simp [encB, encU, dropPad, i2c_ne_61]
      · have : encB (a :: b :: c :: r) =
            [i2c (a / 4), i2c (a % 4 * 16 + b / 16), i2c (b % 16 * 4 + c / 64),
             i2c (c % 64)] ++ encB r := by simp [encB]
        rw [this, dropPad_append (by have := encB_len_ge hr; omega), ih]
        simp [encU]

theorem encU_len_mod (b : List Nat) : (encU b).length % 4 ≠ 1 := by
  induction b using encU.induct with
  | case1 => simp [encU]
  | case2 a => simp [encU]
  | case3 a b => simp [encU]
  | case4 a b c r ih => simp [encU]; omega

theorem encU_all_b64 {b : List Nat} (hb : ∀ x ∈ b, x < 256) :
    (encU b).all isB64 = true := by
  induction b using encU.induct with
  | case1 => simp [encU]
  | case2 a =>
      have ha : a < 256 := hb a (by simp)
      simp [encU, isB64_i2c _ (by omega : a / 4 < 64), isB64_i2c _ (by omega : a % 4 * 16 < 64)]
  | case3 a b =>
      have ha : a < 256 := hb a (by simp)
      have hbb : b < 256 := hb b (by simp)
      simp [encU, isB64_i2c _ (by omega : a / 4 < 64),
        isB64_i2c _ (by omega : a % 4 * 16 + b / 16 < 64),
        isB64_i2c _ (by omega : b % 16 * 4 < 64)]
  | case4 a b c r ih =>
      have ha : a < 256 := hb a (by simp)
      have hbb : b < 256 := hb b (by simp)
      have hcc : c < 256 := hb c (by simp)
      simp [encU, isB64_i2c _ (by omega : a / 4 < 64),
        isB64_i2c _ (by omega : a % 4 * 16 + b / 16 < 64),
        isB64_i2c _ (by omega : b % 16 * 4 + c / 64 < 64),
        isB64_i2c _ (by omega : c % 64 < 64)]
      simpa using ih (fun x hx => hb x (by simp [hx]))

theorem decQ_encU {b : List Nat} (hb : ∀ x ∈ b, x < 256) : decQ (encU b) = b := by
  induction b using encU.induct with
  | case1 => rfl
  | case2 a =>
      have ha : a < 256 := hb a (by simp)
      simp only [encU, decQ, c2i_i2c _ (by omega : a / 4 < 64),
        c2i_i2c _ (by omega : a % 4 * 16 < 64)]
      congr 1
      omega
  | case3 a b =>
      have ha : a < 256 := hb a (by simp)
      have hbb : b < 256 := hb b (by simp)
      simp only [encU, decQ, c2i_i2c _ (by omega : a / 4 < 64),
        c2i_i2c _ (by omega : a % 4 * 16 + b / 16 < 64),
        c2i_i2c _ (by omega : b % 16 * 4 < 64)]
      congr 1
      · omega
      · congr 1
        omega
  | case4 a b c r ih =>
      have ha : a < 256 := hb a (by simp)
      have hbb : b < 256 := hb b (by simp)
      have hcc : c < 256 := hb c (by simp)
      simp only [encU, decQ, c2i_i2c _ (by omega : a / 4 < 64),
        c2i_i2c _ (by omega : a % 4 * 16 + b / 16 < 64),
        c2i_i2c _ (by omega : b % 16 * 4 + c / 64 < 64),
        c2i_i2c _ (by omega : c % 64 < 64),
        ih (fun x hx => hb x (by simp [hx]))]
      congr 1
      · omega
      · congr 1
        · omega
        · congr 1
          omega

/-- `atob` inverts `btoa` on byte strings. -/
theorem atob_btoa {b : List Nat} (hb : ∀ x ∈ b, x < 256) :
    atob (encB b) = some b := by
  unfold atob
  simp only [encB_filter hb]
  have h0 : ((encB b).length % 4 == 0) = true := by simp [encB_len b]
  rw [if_pos h0, dropPad_encB b]
  have h1 : ((encU b).length % 4 == 1) = false := by
    simp [encU_len_mod b]
  rw [if_neg (by simp [h1]), if_pos (encU_all_b64 hb), decQ_encU hb]

/-! ## JSON values, `JSON.parse` and the pieces of `JSON.stringify`

`JSON.parse` is modelled as a recursive-descent parser over code units.
JavaScript objects are insertion-ordered maps whose duplicate keys are
collapsed (last value wins, first position kept), which `objInsert`
reproduces.  One documented restriction: number literals are modelled as
integers only — a fractional or exponent part makes the model parser
fail where `JSON.parse` would return a float.  Every number this
repository serializes is a non-negative integer, and every concrete
input evaluated below stays inside the integer fragment. -/

/-- A parsed JSON value.  Objects are insertion-ordered, duplicate-free
association lists (the shape `JSON.parse` produces). -/
inductive Json where
  | null : Json
  | bool (b : Bool) : Json
  | num (n : Int) : Json
  | str (s : JsStr) : Json
  | arr (elems : List Json) : Json
  | obj (entries : List (JsStr × Json)) : Json

/-- JavaScript property assignment `acc[k] = v`: overwrite in place if
the key exists, else append. -/
def objInsert (es : List (JsStr × Json)) (k : JsStr) (v : Json) : List (JsStr × Json) :=
  if es.any (fun e => e.1 == k) then
    es.map (fun e => if e.1 == k then (k, v) else e)
  else es ++ [(k, v)]

/-- JavaScript property read `j[k]`: `none` models `undefined` (also the
result of reading a property off a primitive or array). -/
def objGet (j : Json) (k : JsStr) : Option Json :=
  match j with
  | Json.obj es => (es.find? (fun e => e.1 == k)).map (fun e => e.2)
  | _ => none

def isNullJ : Json → Bool
  | Json.null => true
  | _ => false

/-- JSON insignificant whitespace. -/
def isWsJ (c : Nat) : Bool := c == 32 || c == 9 || c == 10 || c == 13

def skipWs (s : JsStr) : JsStr := s.dropWhile isWsJ

def isDig (c : Nat) : Bool := 48 ≤ c && c ≤ 57

/-- Hex digit value for `\uXXXX` escapes. -/
def hexV (c : Nat) : Option Nat :=
  if 48 ≤ c ∧ c ≤ 57 then some (c - 48)
  else if 97 ≤ c ∧ c ≤ 102 then some (c - 87)
  else if 65 ≤ c ∧ c ≤ 70 then some (c - 55)
  else none

/-- Single-character string escapes accepted by `JSON.parse`. -/
def escUn (e : Nat) : Option Nat :=
  if e = 34 then some 34 else if e = 92 then some 92 else if e = 47 then some 47
  else if e = 98 then some 8 else if e = 102 then some 12 else if e = 110 then some 10
  else if e = 114 then some 13 else if e = 116 then some 9 else none

/-- Parse the body of a JSON string literal (the opening quote already
consumed), returning the decoded code units and the rest of the input. -/
def parseStrBody : JsStr → Option (JsStr × JsStr)
  | [] => none
  | c :: r =>
    if c = 34 then some ([], r)
    else if c = 92 then
      match r with
      | [] => none
      | e :: r2 =>
        if e = 117 then
          match r2 with
          | h1 :: h2 :: h3 :: h4 :: r3 =>
            match hexV h1, hexV h2, hexV h3, hexV h4 with
            | some v1, some v2, some v3, some v4 =>
                (parseStrBody r3).map
                  (fun p => ((((v1 * 16 + v2) * 16 + v3) * 16 + v4) :: p.1, p.2))
            | _, _, _, _ => none
          | _ => none
        else
          match escUn e with
          | some d => (parseStrBody r2).map (fun p => (d :: p.1, p.2))
          | none => none
    else if c < 32 then none
    else (parseStrBody r).map (fun p => (c :: p.1, p.2))

/-- Decimal value of a digit run. -/
def digitsVal (ds : List Nat) : Nat := ds.foldl (fun a d => a * 10 + (d - 48)) 0

/-- Parse an unsigned JSON integer literal (leading-zero rule enforced). -/
def parseNumNat (s : JsStr) : Option (Nat × JsStr) :=
  let ds := s.takeWhile isDig
  if ds = [] then none
  else if ds.take 1 = [48] ∧ 1 < ds.length then none
  else some (digitsVal ds, s.dropWhile isDig)

/-- Parse a JSON integer literal with optional minus sign. -/
def parseNum (s : JsStr) : Option (Int × JsStr) :=
  match s with
  | 45 :: r => (parseNumNat r).map (fun p => (-(p.1 : Int), p.2))
  | _ => (parseNumNat s).map (fun p => ((p.1 : Int), p.2))

mutual

/-- Parse one JSON value; `fuel` bounds the recursion depth and the
number of members parsed (the top-level entry point supplies input
length + 1, which always suffices). -/
def parseValue : Nat → JsStr → Option (Json × JsStr)
  | 0, _ => none
  | fuel + 1, s =>
    match skipWs s with
    | [] => none
    | 110 :: 117 :: 108 :: 108 :: r => some (Json.null, r)
    | 116 :: 114 :: 117 :: 101 :: r => some (Json.bool true, r)
    | 102 :: 97 :: 108 :: 115 :: 101 :: r => some (Json.bool false, r)
    | 34 :: r => (parseStrBody r).map (fun p => (Json.str p.1, p.2))
    | 123 :: r => parseObjRest fuel [] r
    | 91 :: r => parseArrRest fuel [] r
    | c :: r =>
      if c = 45 ∨ isDig c then (parseNum (c :: r)).map (fun p => (Json.num p.1, p.2))
      else none
termination_by fuel s => (fuel, 1)

/-- Right after `{`: either an immediate `}` or a first member. -/
def parseObjRest (fuel : Nat) (acc : List (JsStr × Json)) (s : JsStr) :
    Option (Json × JsStr) :=
  if (skipWs s).take 1 = [125] then some (Json.obj acc, (skipWs s).drop 1)
  else parseMember fuel acc s
termination_by (fuel, 2)

/-- One `"key": value` member followed by `,` (more members) or `}`. -/
def parseMember : Nat → List (JsStr × Json) → JsStr → Option (Json × JsStr)
  | 0, _, _ => none
  | fuel + 1, acc, s =>
    match skipWs s with
    | 34 :: r =>
      match parseStrBody r with
      | none => none
      | some (k, r2) =>
        match skipWs r2 with
        | 58 :: r3 =>
          match parseValue fuel r3 with
          | none => none
          | some (v, r4) =>
            match skipWs r4 with
            | 44 :: r5 => parseMember fuel (objInsert acc k v) r5
            | 125 :: r5 => some (Json.obj (objInsert acc k v), r5)
            | _ => none
        | _ => none
    | _ => none
termination_by fuel acc s => (fuel, 0)

/-- Right after `[`: either an immediate `]` or a first element. -/
def parseArrRest (fuel : Nat) (acc : List Json) (s : JsStr) : Option (Json × JsStr) :=
  if (skipWs s).take 1 = [93] then some (Json.arr acc, (skipWs s).drop 1)
  else parseElem fuel acc s
termination_by (fuel, 2)

/-- One array element followed by `,` (more elements) or `]`. -/
def parseElem : Nat → List Json → JsStr → Option (Json × JsStr)
  | 0, _, _ => none
  | fuel + 1, acc, s =>
    match parseValue fuel s with
    | none => none
    | some (v, r) =>
      match skipWs r with
      | 44 :: r2 => parseElem fuel (acc ++ [v]) r2
      | 93 :: r2 => some (Json.arr (acc ++ [v]), r2)
      | _ => none
termination_by fuel acc s => (fuel, 0)

end

/-- `JSON.parse`: parse a complete text, allowing trailing whitespace. -/
def parseJson (s : JsStr) : Option Json :=
  match parseValue (s.length + 1) s with
  | some (v, rest) => if skipWs rest = [] then some v else none
  | none => none

/-- Lowercase hex digit (as used by `JSON.stringify` in `\u00XX` escapes). -/
def hexD (x : Nat) : Nat := if x < 10 then 48 + x else 87 + x

/-- `JSON.stringify` escaping of one string character. -/
def escChar (c : Nat) : List Nat :=
  if c = 34 then [92, 34]
  else if c = 92 then [92, 92]
  else if c = 8 then [92, 98]
  else if c = 9 then [92, 116]
  else if c = 10 then [92, 110]
  else if c = 12 then [92, 102]
  else if c = 13 then [92, 114]
  else if c < 32 then [92, 117, 48, 48, hexD (c / 16), hexD (c % 16)]
  else [c]

/-- `JSON.stringify` escaping of a whole string body. -/
def escBody : JsStr → JsStr
  | [] => []
  | c :: cs => escChar c ++ escBody cs

/-- `JSON.stringify` of a string: quote, escaped body, quote. -/
def serStr (s : JsStr) : JsStr := 34 :: (escBody s ++ [34])

/-- Fuel-driven digit extraction (structural recursion, so that concrete
codes evaluate inside the kernel). -/
def natDigsAux : Nat → Nat → List Nat
  | 0, _ => []
  | fuel + 1, n => if n < 10 then [48 + n] else natDigsAux fuel (n / 10) ++ [48 + n % 10]

/-- Decimal digits of a natural number (`String(n)` / `JSON.stringify(n)`
for the non-negative integers this repository serializes). -/
def natDigs (n : Nat) : List Nat := natDigsAux (n + 1) n

theorem natDigsAux_fuel (f1 : Nat) : ∀ f2 n, n < f1 → n < f2 →
    natDigsAux f1 n = natDigsAux f2 n := by
  induction f1 with
  | zero => intro f2 n h1; omega
  | succ f ih =>
    intro f2 n h1 h2
    cases f2 with
    | zero => omega
    | succ g =>
      show (if n < 10 then [48 + n] else natDigsAux f (n / 10) ++ [48 + n % 10]) =
        (if n < 10 then [48 + n] else natDigsAux g (n / 10) ++ [48 + n % 10])
      split_ifs with h
      · rfl
      · rw [ih g (n / 10) (by omega) (by omega)]

/-- The defining recurrence of `natDigs`. -/
theorem natDigs_eq (n : Nat) :
    natDigs n = if n < 10 then [48 + n] else natDigs (n / 10) ++ [48 + n % 10] := by
  show (if n < 10 then [48 + n] else natDigsAux n (n / 10) ++ [48 + n % 10]) = _
  split_ifs with h
  · rfl
  · rw [natDigsAux_fuel n (n / 10 + 1) (n / 10) (by omega) (by omega)]
    rfl

/-- JavaScript truthiness of a JSON value (`undefined` is `none`). -/
def truthy (x : Option Json) : Bool :=
  match x with
  | none => false
  | some Json.null => false
  | some (Json.bool b) => b
  | some (Json.num n) => n != 0
  | some (Json.str s) => s != []
  | some _ => true

/-- JavaScript `x || d` on a property read. -/
def jsOr (x : Option Json) (d : Json) : Json :=
  match x with
  | some v => if truthy (some v) then v else d
  | none => d

/-- JavaScript strict equality of a property read against a string
literal (`v === 's'`); `undefined` and non-strings compare false. -/
def jsEqStr (x : Option Json) (s : JsStr) : Bool :=
  match x with
  | some (Json.str t) => t == s
  | _ => false

/-- `Object.entries(x)`: `none` models the `TypeError` thrown on
`undefined`/`null`; arrays and strings enumerate indexed entries;
other primitives have no own enumerable properties. -/
def jEntries (x : Option Json) : Option (List (JsStr × Json)) :=
  match x with
  | none => none
  | some Json.null => none
  | some (Json.obj es) => some es
  | some (Json.arr vs) => some ((vs.enum.map (fun p => (natDigs p.1, p.2))))
  | some (Json.str s) => some ((s.enum.map (fun p => (natDigs p.1, Json.str [p.2]))))
  | some _ => some []

/-! ## Continuation Code System (`src/unnamed/part_003`, continuationCode.js)

`encodeState` projects a Session State to its essential subset, runs it
through `JSON.stringify` and `btoa`, and prepends the human-readable
prefix; `decodeState` splits on `-`, takes the last segment, and inverts
the pipeline, reconstructing a state object dynamically.  Property
keys appear as code-unit lists: `[118]`/`[99]`/`[109]`/`[102]`/`[116]`/
`[115,116]` are `v`/`c`/`m`/`f`/`t`/`st`; `[115]`, `[117]` are `s`, `u`.  The `try` /
`catch` wrappers are modelled by `Except`: each point where the
JavaScript body can throw (a `btoa`/`atob` `DOMException`, a
`JSON.parse` `SyntaxError`, a property read on `null`, or
`Object.entries` of `null`/`undefined`) maps to the corresponding
`Except.error`. -/

/-- Essential projection of one field record: `{v, s, u}`. -/
structure FieldEss where
  value : JsStr
  status : JsStr
  unlocked : Bool

/-- The essential subset of a Session State that `encodeState` keeps:
version, concept, current module, per-field `{value,status,unlocked}`,
token count and start time.  `fields` is the insertion-ordered object. -/
structure SessionEss where
  version : JsStr
  concept : Option JsStr
  currentModule : Nat
  fields : List (JsStr × FieldEss)
  tokenCount : Nat
  startTime : Option Nat

def serOptStr : Option JsStr → JsStr
  | none => [110, 117, 108, 108]
  | some s => serStr s

def serOptNat : Option Nat → JsStr
  | none => [110, 117, 108, 108]
  | some n => natDigs n

/-- `JSON.stringify` of one essential field record: the text
`{"v":VALUE,"s":STATUS,"u":BOOL}` written as code units. -/
def serFieldEss (fe : FieldEss) : JsStr :=
  [123, 34, 118, 34, 58] ++ serStr fe.value ++ ([44, 34, 115, 34, 58] ++ (serStr fe.status ++
  ([44, 34, 117, 34, 58] ++ ((if fe.unlocked then [116, 114, 117, 101]
    else [102, 97, 108, 115, 101]) ++ [125]))))

/-- Members of the essential `f` object, comma separated, with the
closing brace (the shape `JSON.stringify` emits after the opening brace). -/
def serFieldsTail : List (JsStr × FieldEss) → JsStr
  | [] => [125]
  | [(k, fe)] => serStr k ++ (58 :: serFieldEss fe) ++ [125]
  | (k, fe) :: rest => serStr k ++ (58 :: serFieldEss fe) ++ (44 :: serFieldsTail rest)

/-- `JSON.stringify` of the essential `f` object. -/
def serFields (fs : List (JsStr × FieldEss)) : JsStr := 123 :: serFieldsTail fs

/-- `JSON.stringify` of the essential object `{v, c, m, f, t, st}` built
in `encodeState` (insertion order of the object literal), as code units:
`{"v":VERSION,"c":CONCEPT,"m":MODULE,"f":FIELDS,"t":TOKENS,"st":START}`. -/
def serEssential (S : SessionEss) : JsStr :=
  [123, 34, 118, 34, 58] ++ (serStr S.version ++ ([44, 34, 99, 34, 58] ++ (serOptStr S.concept ++
  ([44, 34, 109, 34, 58] ++ (natDigs S.currentModule ++ ([44, 34, 102, 34, 58] ++
  (serFields S.fields ++ ([44, 34, 116, 34, 58] ++ (natDigs S.tokenCount ++
  ([44, 34, 115, 116, 34, 58] ++ (serOptNat S.startTime ++ [125])))))))))))

/-- Characters removed by `concept.replace(/[aeiou\s]/gi, '')`: vowels of
either case and JavaScript `\s` whitespace. -/
def isVowelOrWs (c : Nat) : Bool :=
  c == 97 || c == 101 || c == 105 || c == 111 || c == 117 ||
  c == 65 || c == 69 || c == 73 || c == 79 || c == 85 ||
  c == 9 || c == 10 || c == 11 || c == 12 || c == 13 || c == 32 ||
  c == 160 || c == 0x1680 || (0x2000 ≤ c && c ≤ 0x200A) || c == 0x2028 ||
  c == 0x2029 || c == 0x202F || c == 0x205F || c == 0x3000 || c == 0xFEFF

/-- `String.prototype.toUpperCase` on one character, exact on the
Latin-1 range (`ß` expands to `SS`, `µ` and `ÿ` map out of Latin-1);
characters that are not Latin-1 lowercase letters are kept unchanged,
which is exact for ASCII digits, punctuation and uppercase letters. -/
def upperChar (c : Nat) : List Nat :=
  if 97 ≤ c ∧ c ≤ 122 then [c - 32]
  else if c = 223 then [83, 83]
  else if c = 181 then [924]
  else if c = 255 then [376]
  else if 224 ≤ c ∧ c ≤ 254 ∧ c ≠ 247 then [c - 32]
  else [c]

def toUpperJs : JsStr → JsStr
  | [] => []
  | c :: cs => upperChar c ++ toUpperJs cs

/-- `String(n).padStart(2, '0')`. -/
def padStart2 (s : JsStr) : JsStr :=
  if s.length < 2 then List.replicate (2 - s.length) 48 ++ s else s

/-- `generatePrefix(concept)`; `rnd` is the draw of
`Math.floor(Math.random() * 100)`. -/
def generatePrefix (rnd : Nat) (concept : Option JsStr) : JsStr :=
  match concept with
  | none => jsStr "FLS"
  | some c =>
    if c = [] then jsStr "FLS"
    else
      jsStr "FLS-" ++ toUpperJs ((c.filter (fun ch => !isVowelOrWs ch)).take 3) ++
        padStart2 (natDigs rnd)

/-- `code.split('-')` followed by taking the last part: the suffix after
the last `-`, or the whole string if there is none. -/
def lastSegment (s : JsStr) : JsStr := (s.reverse.takeWhile (fun c => c != 45)).reverse

/-- `encodeState(state)`: essential projection, `JSON.stringify`,
`btoa`, prefix.  The catch clause rethrows as `'State encoding failed'`. -/
def encodeState (rnd : Nat) (state : SessionEss) : Except JsStr JsStr :=
  match btoa (serEssential state) with
  | some encoded => Except.ok ( generatePrefix rnd state.concept ++ (45 :: encoded))
  | none => Except.error (jsStr "State encoding failed")

/-- One reconstructed field record of `decodeState`: the `value`,
`status` and `unlocked` property reads (`none` models `undefined`). -/
structure DecField where
  value : Option Json
  status : Option Json
  unlocked : Option Json

/-- The input-dependent part of the state object `decodeState` returns.
(The members it initializes to constants — `modules: []`, empty
histories, fresh `lastUpdate`, zeroed emotional state — carry no
information and are omitted.) -/
structure DecodedState where
  version : Option Json
  concept : Option Json
  currentModule : Json
  fields : List (JsStr × DecField)
  tokenCount : Json
  startTime : Option Json

/-- The `Object.entries(essential.f).reduce(...)` reconstruction of the
per-field records: each entry value yields its `v`/`s`/`u` property
reads (`[118]`, `[115]`, `[117]`). -/
def decodeFields (entries : List (JsStr × Json)) : List (JsStr × DecField) :=
  entries.map (fun e => (e.1,
    { value := objGet e.2 [118]
      status := objGet e.2 [115]
      unlocked := objGet e.2 [117] }))

/-- `decodeState(code)`.  Failure points, in source order: `atob` throws
on malformed base64; `JSON.parse` throws on malformed JSON;
`essential.v` throws when the parsed value is `null`; `Object.entries`
throws when `essential.f` is `null`/`undefined`; `field.v` throws when
an entry value is `null`.  All are caught and rethrown as
`'Invalid continuation code'`. -/
def decodeState (code : JsStr) : Except JsStr DecodedState :=
  match atob (lastSegment code) with
  | none => Except.error (jsStr "Invalid continuation code")
  | some json =>
    match parseJson json with
    | none => Except.error (jsStr "Invalid continuation code")
    | some essential =>
      if isNullJ essential then Except.error (jsStr "Invalid continuation code")
      else
        match jEntries (objGet essential [102]) with
        | none => Except.error (jsStr "Invalid continuation code")
        | some entries =>
          if entries.any (fun e => isNullJ e.2) then
            Except.error (jsStr "Invalid continuation code")
          else Except.ok
            { version := objGet essential [118]
              concept := objGet essential [99]
              currentModule := jsOr (objGet essential [109]) (Json.num 0)
              fields := decodeFields entries
              tokenCount := jsOr (objGet essential [116]) (Json.num 0)
              startTime := objGet essential [115, 116] }

def isUpperC (c : Nat) : Bool := 65 ≤ c && c ≤ 90

/-- Line terminators, which `.` does not match in a JavaScript regex. -/
def isLineTerm (c : Nat) : Bool := c == 10 || c == 13 || c == 0x2028 || c == 0x2029

/-- Match of `[A-Z]{0,3}\d{2}-.+$` at abbreviation length `k`. -/
def matchTail (t : JsStr) (k : Nat) : Bool :=
  (t.take k).length == k && (t.take k).all isUpperC &&
  ((t.drop k).take 2).length == 2 && ((t.drop k).take 2).all isDig &&
  (match t.drop (k + 2) with
   | 45 :: rest => !rest.isEmpty && rest.all (fun c => !isLineTerm c)
   | _ => false)

/-- `validateCode(code)`: the test `/^FLS-[A-Z]{0,3}\d{2}-.+$/.test(code)`. -/
def validateCode (code : JsStr) : Bool :=
  match code with
  | 70 :: 76 :: 83 :: 45 :: t => matchTail t 0 || matchTail t 1 || matchTail t 2 || matchTail t 3
  | _ => false

/-- The JSON value `JSON.parse` recovers from a serialized concept. -/
def conceptJson : Option JsStr → Json
  | none => Json.null
  | some c => Json.str c

/-- The JSON value `JSON.parse` recovers from a serialized start time. -/
def startTimeJson : Option Nat → Json
  | none => Json.null
  | some n => Json.num n

/-- The JSON abstract-syntax value of the serialized essential subset. -/
def fieldEssJson (fe : FieldEss) : Json :=
  Json.obj [([118], Json.str fe.value), ([115], Json.str fe.status),
    ([117], Json.bool fe.unlocked)]

def essentialJson (S : SessionEss) : Json :=
  Json.obj [([118], Json.str S.version), ([99], conceptJson S.concept),
    ([109], Json.num S.currentModule),
    ([102], Json.obj (S.fields.map (fun e => (e.1, fieldEssJson e.2)))),
    ([116], Json.num S.tokenCount), ([115, 116], startTimeJson S.startTime)]

/-- What `decodeState` returns on the code of a well-formed state: every
essential field injected back unchanged. -/
def decodedOf (S : SessionEss) : DecodedState :=
  { version := some (Json.str S.version)
    concept := some (conceptJson S.concept)
    currentModule := Json.num S.currentModule
    fields := S.fields.map (fun e => (e.1,
      { value := some (Json.str e.2.value)
        status := some (Json.str e.2.status)
        unlocked := some (Json.bool e.2.unlocked) }))
    tokenCount := Json.num S.tokenCount
    startTime := some (startTimeJson S.startTime) }

/-- All code units below 256 (what `btoa` accepts). -/
def latin1 (s : JsStr) : Bool := s.all (· < 256)

/-- Well-formedness of the essential subset for encoding: every string
in it is Latin-1 (otherwise `btoa` throws) and the field keys are
distinct (they are properties of one JavaScript object). -/
def latin1Ess (S : SessionEss) : Prop :=
  latin1 S.version = true ∧
  (∀ c, S.concept = some c → latin1 c = true) ∧
  (∀ e ∈ S.fields, latin1 e.1 = true ∧ latin1 e.2.value = true ∧ latin1 e.2.status = true) ∧
  (S.fields.map (fun e => e.1)).Nodup

instance : DecidablePred latin1Ess := fun S => by
  unfold latin1Ess
  infer_instance

/-! ## Round-trip lemmas: `parseJson` inverts the serializer output -/

theorem hexV_hexD : ∀ x < 16, hexV (hexD x) = some x := by decide

theorem skipWs_cons {c : Nat} (h : isWsJ c = false) (r : JsStr) :
    skipWs (c :: r) = c :: r := by
  simp [skipWs, List.dropWhile_cons, h]

theorem parseStrBody_ser (s rest : JsStr) :
    parseStrBody (escBody s ++ (34 :: rest)) = some (s, rest) := by
  induction s with
  | nil =>
      show parseStrBody (34 :: rest) = some ([], rest)
      unfold parseStrBody
      simp
  | cons c cs ih =>
    show parseStrBody (escChar c ++ escBody cs ++ (34 :: rest)) = some (c :: cs, rest)
    by_cases h34 : c = 34
    · subst h34
      show parseStrBody (92 :: 34 :: (escBody cs ++ (34 :: rest))) = _
      unfold parseStrBody
      simp [escUn, ih]
    by_cases h92 : c = 92
    · subst h92
      show parseStrBody (92 :: 92 :: (escBody cs ++ (34 :: rest))) = _
      unfold parseStrBody
      simp [escUn, ih]
    by_cases h8 : c = 8
    · subst h8
      show parseStrBody (92 :: 98 :: (escBody cs ++ (34 :: rest))) = _
      unfold parseStrBody
      simp [escUn, ih]
    by_cases h9 : c = 9
    · subst h9
      show parseStrBody (92 :: 116 :: (escBody cs ++ (34 :: rest))) = _
      unfold parseStrBody
      simp [escUn, ih]
    by_cases h10 : c = 10
    · subst h10
      show parseStrBody (92 :: 110 :: (escBody cs ++ (34 :: rest))) = _
      unfold parseStrBody
      simp [escUn, ih]
    by_cases h12 : c = 12
    · subst h12
      show parseStrBody (92 :: 102 :: (escBody cs ++ (34 :: rest))) = _
      unfold parseStrBody
      simp [escUn, ih]
    by_cases h13 : c = 13
    · subst h13
      show parseStrBody (92 :: 114 :: (escBody cs ++ (34 :: rest))) = _
      unfold parseStrBody
      simp [escUn, ih]
    by_cases hlt : c < 32
    · have hesc : escChar c = [92, 117, 48, 48, hexD (c / 16), hexD (c % 16)] := by
        unfold escChar
        rw [if_neg h34, if_neg h92, if_neg h8, if_neg h9, if_neg h10, if_neg h12,
          if_neg h13, if_pos hlt]
      rw [hesc]
      have e1 : hexV (hexD (c / 16)) = some (c / 16) := hexV_hexD _ (by omega)
      have e2 : hexV (hexD (c % 16)) = some (c % 16) := hexV_hexD _ (by omega)
      have hv : ((0 * 16 + 0) * 16 + c / 16) * 16 + c % 16 = c := by omega
      show parseStrBody
          (92 :: 117 :: 48 :: 48 :: hexD (c / 16) :: hexD (c % 16) ::
            (escBody cs ++ (34 :: rest))) = _
      unfold parseStrBody
      have h48 : hexV 48 = some 0 := by decide
      simp [h48, e1, e2, ih, hv]
      omega
    · have hesc : escChar c = [c] := by
        unfold escChar
        rw [if_neg h34, if_neg h92, if_neg h8, if_neg h9, if_neg h10, if_neg h12,
          if_neg h13, if_neg hlt]
      rw [hesc]
      show parseStrBody (c :: (escBody cs ++ (34 :: rest))) = _
      unfold parseStrBody
      rw [if_neg h34, if_neg h92, if_neg hlt, ih]
      rfl

theorem natDigs_all_dig (n : Nat) : ∀ d ∈ natDigs n, isDig d = true := by
  induction n using Nat.strong_induction_on with
  | _ n ih =>
    intro d hd
    rw [natDigs_eq] at hd
    by_cases h : n < 10
    · rw [if_pos h] at hd
      simp at hd
      simp [hd, isDig]
      omega
    · rw [if_neg h] at hd
      rcases List.mem_append.mp hd with h1 | h1
      · exact ih (n / 10) (by omega) d h1
      · simp at h1
        simp [h1, isDig]
        omega

theorem natDigs_ne_nil (n : Nat) : natDigs n ≠ [] := by
  rw [natDigs_eq]
  split_ifs <;> simp

theorem digitsVal_append (l : List Nat) (x : Nat) :
    digitsVal (l ++ [x]) = digitsVal l * 10 + (x - 48) := by
  simp [digitsVal, List.foldl_append]

theorem digitsVal_natDigs (n : Nat) : digitsVal (natDigs n) = n := by
  induction n using Nat.strong_induction_on with
  | _ n ih =>
    rw [natDigs_eq]
    by_cases h : n < 10
    · rw [if_pos h]; simp [digitsVal]
    · rw [if_neg h, digitsVal_append, ih (n / 10) (by omega)]
      omega

theorem natDigs_head_ne_48 : ∀ {n : Nat}, 1 ≤ n → (natDigs n).take 1 ≠ [48] := by
  intro n
  induction n using Nat.strong_induction_on with
  | _ n ih =>
    intro hn
    rw [natDigs_eq]
    by_cases h : n < 10
    · rw [if_pos h]
      simp
      omega
    · rw [if_neg h]
      obtain ⟨d, ds, hd⟩ := List.exists_cons_of_ne_nil (natDigs_ne_nil (n / 10))
      have := ih (n / 10) (by omega) (by omega)
      rw [hd] at this ⊢
      simpa using this

theorem takeWhile_append_of_all {p : Nat → Bool} {l r : List Nat}
    (hl : ∀ d ∈ l, p d = true) (hr : ∀ c, r.head? = some c → p c = false) :
    (l ++ r).takeWhile p = l ∧ (l ++ r).dropWhile p = r := by
  induction l with
  | nil =>
      simp only [List.nil_append]
      constructor
      · cases r with
        | nil => simp
        | cons c cr => simp [List.takeWhile_cons, hr c rfl]
      · cases r with
        | nil => simp
        | cons c cr => simp [List.dropWhile_cons, hr c rfl]
  | cons a l ih =>
      have ha : p a = true := hl a (by simp)
      have ih2 := ih (fun d hd => hl d (by simp [hd]))
      simp [List.takeWhile_cons, List.dropWhile_cons, ha, ih2.1, ih2.2]

theorem parseNumNat_ser (n : Nat) (rest : JsStr)
    (hr : ∀ c, rest.head? = some c → isDig c = false) :
    parseNumNat (natDigs n ++ rest) = some (n, rest) := by
  obtain ⟨htake, hdrop⟩ := takeWhile_append_of_all (natDigs_all_dig n) hr
  unfold parseNumNat
  rw [htake, hdrop]
  rcases Nat.eq_zero_or_pos n with rfl | hn
  · have : natDigs 0 = [48] := by rw [natDigs_eq]; simp
    simp [this, digitsVal]
  · rw [if_neg (by simp [natDigs_ne_nil n])]
    rw [if_neg (by
      intro hcon
      exact natDigs_head_ne_48 hn hcon.1)]
    rw [digitsVal_natDigs]

theorem escChar_plain (k : Nat) (hk : 32 ≤ k) (h34 : k ≠ 34) (h92 : k ≠ 92) :
    escChar k = [k] := by
  unfold escChar
  split_ifs <;> first | rfl | omega

theorem parseStrBody_key (k : Nat) (hk : 32 ≤ k ∧ k ≠ 34 ∧ k ≠ 92) (rest : JsStr) :
    parseStrBody (k :: 34 :: rest) = some ([k], rest) := by
  have := parseStrBody_ser [k] rest
  simpa [escBody, escChar_plain k hk.1 hk.2.1 hk.2.2] using this

theorem parseValue_ser_str (fuel : Nat) (s rest : JsStr) :
    parseValue (fuel + 1) (serStr s ++ rest) = some (Json.str s, rest) := by
  have hform : serStr s ++ rest = 34 :: (escBody s ++ (34 :: rest)) := by simp [serStr]
  rw [hform]
  unfold parseValue
  rw [skipWs_cons (by decide)]
  simp [parseStrBody_ser s rest]

theorem parseValue_ser_nat (fuel n : Nat) (rest : JsStr)
    (hr : ∀ c, rest.head? = some c → isDig c = false) :
    parseValue (fuel + 1) (natDigs n ++ rest) = some (Json.num (n : Int), rest) := by
  obtain ⟨d, ds, hd⟩ := List.exists_cons_of_ne_nil (natDigs_ne_nil n)
  have hdig : isDig d = true := natDigs_all_dig n d (by rw [hd]; simp)
  have hd48 : 48 ≤ d ∧ d ≤ 57 := by
    revert hdig
    simp [isDig]
  have hP : parseNumNat (natDigs n ++ rest) = some (n, rest) := parseNumNat_ser n rest hr
  rw [hd] at hP ⊢
  rw [List.cons_append]
  unfold parseValue
  rw [skipWs_cons (by simp [isWsJ]; omega)]
  rw [List.cons_append] at hP
  obtain ⟨h1, h2⟩ := hd48
  interval_cases d <;> simp +decide [parseNum, hP, isDig]

theorem parseValue_serFieldEss (fuel : Nat) (fe : FieldEss) (rest : JsStr) :
    parseValue (fuel + 5) (serFieldEss fe ++ rest) = some (fieldEssJson fe, rest) := by
  cases h : fe.unlocked <;>
    simp +decide [serFieldEss, h, parseValue, parseObjRest, parseMember, skipWs_cons,
      parseStrBody_key, parseValue_ser_str, objInsert, fieldEssJson]

/-- Folding the decoded members of the `f` object into the accumulator
object, exactly as the parser builds it. -/
def fObjFold (fs : List (JsStr × FieldEss)) (acc : List (JsStr × Json)) :
    List (JsStr × Json) :=
  fs.foldl (fun a e => objInsert a e.1 (fieldEssJson e.2)) acc

theorem parseMember_chain (fs : List (JsStr × FieldEss)) (hfs : fs ≠ []) :
    ∀ (fuel : Nat) (acc : List (JsStr × Json)) (rest : JsStr),
    parseMember (fuel + fs.length + 5) acc (serFieldsTail fs ++ rest) =
      some (Json.obj (fObjFold fs acc), rest) := by
  induction fs with
  | nil => exact absurd rfl hfs
  | cons hd tl ih =>
    intro fuel acc rest
    obtain ⟨k, fe⟩ := hd
    cases tl with
    | nil =>
        have e : fuel + ([(k, fe)]).length + 5 = (fuel + 4) + 1 + 1 := by simp
        rw [e]
        have hform : serFieldsTail [(k, fe)] ++ rest =
            34 :: (escBody k ++ (34 :: (58 :: (serFieldEss fe ++ (125 :: rest))))) := by
          simp [serFieldsTail, serStr]
        rw [hform]
        simp +decide [parseMember, skipWs_cons, parseStrBody_ser,
          parseValue_serFieldEss fuel, fObjFold]
    | cons h2 t2 =>
        have e : fuel + ((k, fe) :: h2 :: t2).length + 5 =
            (fuel + (h2 :: t2).length + 5) + 1 := by
          simp only [List.length_cons]
          omega
        rw [e]
        have hform : serFieldsTail ((k, fe) :: h2 :: t2) ++ rest =
            34 :: (escBody k ++ (34 :: (58 :: (serFieldEss fe ++
              (44 :: (serFieldsTail (h2 :: t2) ++ rest)))))) := by
          simp [serFieldsTail, serStr]
        rw [hform]
        have hval : parseValue (fuel + (h2 :: t2).length + 5)
            (serFieldEss fe ++ (44 :: (serFieldsTail (h2 :: t2) ++ rest))) =
            some (fieldEssJson fe, 44 :: (serFieldsTail (h2 :: t2) ++ rest)) :=
          parseValue_serFieldEss (fuel + (h2 :: t2).length) fe _
        have ihx := ih (by simp) fuel (objInsert acc k (fieldEssJson fe)) rest
        simp +decide only [parseMember, skipWs_cons, parseStrBody_ser, hval, ihx]
        simp [fObjFold]

theorem parseValue_serFields (fuel : Nat) (fs : List (JsStr × FieldEss)) (rest : JsStr) :
    parseValue (fuel + fs.length + 6) (serFields fs ++ rest) =
      some (Json.obj (fObjFold fs []), rest) := by
  cases fs with
  | nil =>
      simp +decide [serFields, serFieldsTail, parseValue, parseObjRest, skipWs_cons, fObjFold]
  | cons hd tl =>
      obtain ⟨k, fe⟩ := hd
      have e : fuel + ((k, fe) :: tl).length + 6 = (fuel + ((k, fe) :: tl).length + 5) + 1 := by
        omega
      rw [e]
      have hform : serFields ((k, fe) :: tl) ++ rest =
          123 :: (serFieldsTail ((k, fe) :: tl) ++ rest) := by
        simp [serFields]
      rw [hform]
      have hstart : ∃ u, serFieldsTail ((k, fe) :: tl) ++ rest = 34 :: u := by
        cases tl with
        | nil =>
            exact ⟨escBody k ++ 34 :: 58 :: (serFieldEss fe ++ 125 :: rest),
              by simp [serFieldsTail, serStr]⟩
        | cons h2 t2 =>
            exact ⟨escBody k ++ 34 :: 58 :: (serFieldEss fe ++
              44 :: (serFieldsTail (h2 :: t2) ++ rest)), by simp [serFieldsTail, serStr]⟩
      obtain ⟨u, hu⟩ := hstart
      have hc := parseMember_chain ((k, fe) :: tl) (by simp) fuel [] rest
      unfold parseValue
      rw [skipWs_cons (by decide)]
      unfold parseObjRest
      rw [hu, skipWs_cons (by decide), if_neg (by simp), ← hu, hc]

theorem parseValue_lit_null (fuel : Nat) (rest : JsStr) :
    parseValue (fuel + 1) ([110, 117, 108, 108] ++ rest) = some (Json.null, rest) := by
  unfold parseValue
  rw [show ([110, 117, 108, 108] : JsStr) ++ rest = 110 :: 117 :: 108 :: 108 :: rest by simp]
  rw [skipWs_cons (by decide)]

theorem parseStrBody_key2 (k1 k2 : Nat)
    (hk : 32 ≤ k1 ∧ k1 ≠ 34 ∧ k1 ≠ 92 ∧ 32 ≤ k2 ∧ k2 ≠ 34 ∧ k2 ≠ 92) (rest : JsStr) :
    parseStrBody (k1 :: k2 :: 34 :: rest) = some ([k1, k2], rest) := by
  have := parseStrBody_ser [k1, k2] rest
  simpa [escBody, escChar_plain k1 hk.1 hk.2.1 hk.2.2.1,
    escChar_plain k2 hk.2.2.2.1 hk.2.2.2.2.1 hk.2.2.2.2.2] using this

theorem parseValue_serEssential (fuel : Nat) (S : SessionEss) (rest : JsStr) :
    parseValue (fuel + S.fields.length + 13) (serEssential S ++ rest) =
      some (Json.obj [([118], Json.str S.version), ([99], conceptJson S.concept),
        ([109], Json.num S.currentModule), ([102], Json.obj (fObjFold S.fields [])),
        ([116], Json.num S.tokenCount), ([115, 116], startTimeJson S.startTime)], rest) := by
  have hform : serEssential S ++ rest =
      123 :: 34 :: 118 :: 34 :: 58 :: (serStr S.version ++
        (44 :: 34 :: 99 :: 34 :: 58 :: (serOptStr S.concept ++
          (44 :: 34 :: 109 :: 34 :: 58 :: (natDigs S.currentModule ++
            (44 :: 34 :: 102 :: 34 :: 58 :: (serFields S.fields ++
              (44 :: 34 :: 116 :: 34 :: 58 :: (natDigs S.tokenCount ++
                (44 :: 34 :: 115 :: 116 :: 34 :: 58 :: (serOptNat S.startTime ++
                  (125 :: rest)))))))))))) := by
    simp [serEssential]
  have hver : ∀ r2, parseValue (fuel + S.fields.length + 11) (serStr S.version ++ r2) =
      some (Json.str S.version, r2) := fun r2 => parseValue_ser_str _ S.version r2
  have hcon : ∀ r2, parseValue (fuel + S.fields.length + 10) (serOptStr S.concept ++ r2) =
      some (conceptJson S.concept, r2) := by
    intro r2
    cases S.concept with
    | none =>
        simpa [serOptStr, conceptJson] using
          parseValue_lit_null (fuel + S.fields.length + 9) r2
    | some c =>
        simpa [serOptStr, conceptJson] using
          parseValue_ser_str (fuel + S.fields.length + 9) c r2
  have hmod : ∀ r2, parseValue (fuel + S.fields.length + 9)
      (natDigs S.currentModule ++ (44 :: r2)) = some (Json.num S.currentModule, 44 :: r2) :=
    fun r2 => parseValue_ser_nat _ S.currentModule (44 :: r2)
      (by intro c hc; simp at hc; subst hc; decide)
  have hfld : ∀ r2, parseValue (fuel + S.fields.length + 8) (serFields S.fields ++ r2) =
      some (Json.obj (fObjFold S.fields []), r2) := by
    intro r2
    have h := parseValue_serFields (fuel + 2) S.fields r2
    rw [show fuel + 2 + S.fields.length + 6 = fuel + S.fields.length + 8 from by omega] at h
    exact h
  have htok : ∀ r2, parseValue (fuel + S.fields.length + 7)
      (natDigs S.tokenCount ++ (44 :: r2)) = some (Json.num S.tokenCount, 44 :: r2) :=
    fun r2 => parseValue_ser_nat _ S.tokenCount (44 :: r2)
      (by intro c hc; simp at hc; subst hc; decide)
  have hst : parseValue (fuel + S.fields.length + 6) (serOptNat S.startTime ++ (125 :: rest)) =
      some (startTimeJson S.startTime, 125 :: rest) := by
    cases S.startTime with
    | none =>
        simpa [serOptNat, startTimeJson] using
          parseValue_lit_null (fuel + S.fields.length + 5) (125 :: rest)
    | some n =>
        simpa [serOptNat, startTimeJson] using
          parseValue_ser_nat (fuel + S.fields.length + 5) n (125 :: rest)
            (by intro c hc; simp at hc; subst hc; decide)
  rw [hform]
  simp +decide [parseValue, parseObjRest, parseMember, skipWs_cons, parseStrBody_key,
    parseStrBody_key2, hver, hcon, hmod, hfld, htok, hst, objInsert]

theorem serStr_len (s : JsStr) : 2 ≤ (serStr s).length := by
  simp [serStr]

theorem serFieldsTail_len (fs : List (JsStr × FieldEss)) :
    fs.length + 1 ≤ (serFieldsTail fs).length := by
  induction fs with
  | nil => simp [serFieldsTail]
  | cons hd tl ih =>
    obtain ⟨k, fe⟩ := hd
    cases tl with
    | nil =>
        have := serStr_len k
        simp [serFieldsTail]
        omega
    | cons h2 t2 =>
        have := serStr_len k
        simp [serFieldsTail] at ih ⊢
        omega

theorem serEssential_len (S : SessionEss) :
    S.fields.length + 12 ≤ (serEssential S).length := by
  have h1 := serStr_len S.version
  have h2 := serFieldsTail_len S.fields
  simp [serEssential, serFields]
  omega

/-- The full-object parse of a serialized essential subset. -/
theorem parseJson_serEssential (S : SessionEss) :
    parseJson (serEssential S) =
      some (Json.obj [([118], Json.str S.version), ([99], conceptJson S.concept),
        ([109], Json.num S.currentModule), ([102], Json.obj (fObjFold S.fields [])),
        ([116], Json.num S.tokenCount), ([115, 116], startTimeJson S.startTime)]) := by
  have hlen := serEssential_len S
  have harith : (serEssential S).length + 1 =
      ((serEssential S).length - (S.fields.length + 12)) + S.fields.length + 13 := by omega
  unfold parseJson
  rw [harith]
  have h := parseValue_serEssential ((serEssential S).length - (S.fields.length + 12)) S []
  rw [List.append_nil] at h
  rw [h]
  simp [skipWs]

theorem objInsert_notmem {es : List (JsStr × Json)} {k : JsStr} (v : Json)
    (h : ∀ e ∈ es, e.1 ≠ k) : objInsert es k v = es ++ [(k, v)] := by
  unfold objInsert
  rw [if_neg]
  simp only [List.any_eq_true, beq_iff_eq, not_exists, not_and]
  intro e he
  exact h e he

theorem fObjFold_nodup (fs : List (JsStr × FieldEss))
    (hn : (fs.map (fun e => e.1)).Nodup) :
    ∀ acc : List (JsStr × Json), (∀ a ∈ acc, ∀ e ∈ fs, a.1 ≠ e.1) →
    fObjFold fs acc = acc ++ fs.map (fun e => (e.1, fieldEssJson e.2)) := by
  induction fs with
  | nil => intro acc _; simp [fObjFold]
  | cons hd tl ih =>
    intro acc hacc
    obtain ⟨k, fe⟩ := hd
    have hparts := hn
    rw [List.map_cons, List.nodup_cons] at hparts
    obtain ⟨hknot, hn2⟩ := hparts
    have hstep : objInsert acc k (fieldEssJson fe) = acc ++ [(k, fieldEssJson fe)] :=
      objInsert_notmem _ (fun e he => hacc e he (k, fe) (by simp))
    have hk_tl : ∀ e ∈ tl, k ≠ e.1 := by
      intro e he hEq
      exact hknot (by rw [hEq]; exact List.mem_map.mpr ⟨e, he, rfl⟩)
    have ihx := ih hn2 (acc ++ [(k, fieldEssJson fe)]) (by
      intro a ha e he
      rcases List.mem_append.mp ha with h1 | h1
      · exact hacc a h1 e (by simp [he])
      · have h2 : a = (k, fieldEssJson fe) := by simpa using h1
        rw [h2]
        exact hk_tl e he)
    show fObjFold tl (objInsert acc k (fieldEssJson fe)) = _
    rw [hstep, ihx]
    simp

theorem lastSegment_append {p enc : JsStr} (h : ∀ c ∈ enc, c ≠ 45) :
    lastSegment (p ++ 45 :: enc) = enc := by
  unfold lastSegment
  rw [show p ++ 45 :: enc = (p ++ [45]) ++ enc by simp]
  rw [List.reverse_append]
  have hall : ∀ c ∈ enc.reverse, (c != 45) = true := by
    intro c hc
    simpa using h c (List.mem_reverse.mp hc)
  have hhead : ∀ c, ((p ++ [45]).reverse).head? = some c → (c != 45) = false := by
    intro c hc
    rw [List.reverse_append] at hc
    simp at hc
    simp [hc]
  rw [(takeWhile_append_of_all hall hhead).1]
  simp

theorem encB_ne_45 {b : List Nat} (hb : ∀ x ∈ b, x < 256) :
    ∀ c ∈ encB b, c ≠ 45 := by
  intro c hc
  rcases encB_chars hb hc with ⟨n, hn, rfl⟩ | rfl
  · exact (i2c_facts n hn).2.2.1
  · decide

theorem latin1_append (l r : JsStr) : latin1 (l ++ r) = (latin1 l && latin1 r) := by
  simp [latin1]

theorem latin1_cons (c : Nat) (l : JsStr) :
    latin1 (c :: l) = (decide (c < 256) && latin1 l) := by
  simp [latin1]

theorem escChar_latin1 {c : Nat} (hc : c < 256) : latin1 (escChar c) = true := by
  unfold escChar hexD latin1
  split_ifs <;> simp <;> omega

theorem escBody_latin1 {s : JsStr} (h : latin1 s = true) : latin1 (escBody s) = true := by
  induction s with
  | nil => decide
  | cons c cs ih =>
    rw [latin1_cons] at h
    simp only [Bool.and_eq_true, decide_eq_true_eq] at h
    rw [show escBody (c :: cs) = escChar c ++ escBody cs from rfl, latin1_append]
    simp [escChar_latin1 h.1, ih h.2]

theorem serStr_latin1 {s : JsStr} (h : latin1 s = true) : latin1 (serStr s) = true := by
  rw [serStr, latin1_cons, latin1_append]
  simp +decide [escBody_latin1 h]

theorem natDigs_latin1 (n : Nat) : latin1 (natDigs n) = true := by
  rw [latin1, List.all_eq_true]
  intro d hd
  have := natDigs_all_dig n d hd
  simp [isDig] at this
  simp
  omega

theorem serFieldEss_latin1 {fe : FieldEss} (h1 : latin1 fe.value = true)
    (h2 : latin1 fe.status = true) : latin1 (serFieldEss fe) = true := by
  cases h : fe.unlocked <;>
    simp +decide [serFieldEss, h, latin1_append, latin1_cons, serStr_latin1 h1,
      serStr_latin1 h2]

theorem serFieldsTail_latin1 (fs : List (JsStr × FieldEss))
    (h : ∀ e ∈ fs, latin1 e.1 = true ∧ latin1 e.2.value = true ∧ latin1 e.2.status = true) :
    latin1 (serFieldsTail fs) = true := by
  induction fs with
  | nil => decide
  | cons hd tl ih =>
    obtain ⟨k, fe⟩ := hd
    obtain ⟨hk, hv, hs⟩ := h (k, fe) (by simp)
    cases tl with
    | nil =>
        simp +decide [serFieldsTail, latin1_append, latin1_cons, serStr_latin1 hk,
          serFieldEss_latin1 hv hs]
    | cons h2 t2 =>
        have iht := ih (fun e he => h e (by simp at he ⊢; tauto))
        simp +decide [serFieldsTail, latin1_append, latin1_cons, serStr_latin1 hk,
          serFieldEss_latin1 hv hs, iht]

theorem serEssential_latin1 {S : SessionEss} (h : latin1Ess S) :
    latin1 (serEssential S) = true := by
  obtain ⟨h1, h2, h3, _⟩ := h
  have hcon : latin1 (serOptStr S.concept) = true := by
    cases hc : S.concept with
    | none => decide
    | some c => exact serStr_latin1 (h2 c hc)
  have hst : latin1 (serOptNat S.startTime) = true := by
    cases S.startTime with
    | none => decide
    | some n => exact natDigs_latin1 n
  have hfs : latin1 (serFields S.fields) = true := by
    rw [serFields, latin1_cons]
    simp +decide [serFieldsTail_latin1 S.fields (fun e he => h3 e he)]
  simp +decide [serEssential, latin1_append, latin1_cons, serStr_latin1 h1, hcon, hst,
    hfs, natDigs_latin1]

theorem jsOr_num0 (n : Int) : jsOr (some (Json.num n)) (Json.num 0) = Json.num n := by
  by_cases h : n = 0 <;> simp [jsOr, truthy, h]

theorem isNullJ_obj (es : List (JsStr × Json)) : isNullJ (Json.obj es) = false := rfl

theorem any_isNull_fieldEss (fs : List (JsStr × FieldEss)) :
    ((fs.map (fun e => (e.1, fieldEssJson e.2))).any (fun e => isNullJ e.2)) = false := by
  induction fs with
  | nil => rfl
  | cons hd tl ih =>
      rw [List.map_cons, List.any_cons, ih]
      rfl

theorem decodeFields_map (fs : List (JsStr × FieldEss)) :
    decodeFields (fs.map (fun e => (e.1, fieldEssJson e.2))) =
      fs.map (fun e => (e.1, (⟨some (Json.str e.2.value),
        some (Json.str e.2.status), some (Json.bool e.2.unlocked)⟩ : DecField))) := by
  induction fs with
  | nil => rfl
  | cons hd tl ih =>
      simp only [List.map_cons, decodeFields] at ih ⊢
      simp +decide [fieldEssJson, objGet, List.find?] at ih ⊢

/-- Core codec round-trip on Latin-1 states: decoding the code produced
by `encodeState` restores every essential field. -/
theorem decodeState_encodeState (S : SessionEss) (rnd : Nat) (h : latin1Ess S) :
    (encodeState rnd S).bind decodeState = Except.ok (decodedOf S) := by
  have hl : latin1 (serEssential S) = true := serEssential_latin1 h
  have hlt : ∀ x ∈ serEssential S, x < 256 := by
    rw [latin1, List.all_eq_true] at hl
    intro x hx
    simpa using hl x hx
  have henc : btoa (serEssential S) = some (encB (serEssential S)) := by
    unfold btoa
    rw [if_pos]
    exact hl
  show (match btoa (serEssential S) with
    | some encoded => Except.ok ( generatePrefix rnd S.concept ++ (45 :: encoded))
    | none => Except.error (jsStr "State encoding failed")).bind decodeState = _
  rw [henc]
  show decodeState ( generatePrefix rnd S.concept ++ (45 :: encB (serEssential S))) = _
  unfold decodeState
  rw [lastSegment_append (encB_ne_45 hlt), atob_btoa hlt]
  simp +decide [parseJson_serEssential S, fObjFold_nodup S.fields h.2.2.2 [] (by simp),
    jEntries, any_isNull_fieldEss, decodeFields_map, objGet, List.find?, isNullJ_obj,
    decodedOf, jsOr_num0]

/-! ## Claim C1 — codec round-trip -/

/-- A Latin-1 seven-field Session State used as the concrete witness. -/
def demoFields : List (JsStr × FieldEss) :=
  [(jsStr "definition", ⟨jsStr "it calls itself", jsStr "approved", true⟩),
   (jsStr "mechanism", ⟨jsStr "smaller input each time", jsStr "needs_revision", true⟩),
   (jsStr "example", ⟨jsStr "", jsStr "pending", false⟩),
   (jsStr "analogy", ⟨jsStr "", jsStr "pending", false⟩),
   (jsStr "why_matters", ⟨jsStr "", jsStr "pending", false⟩),
   (jsStr "misconception", ⟨jsStr "", jsStr "pending", false⟩),
   (jsStr "integration", ⟨jsStr "", jsStr "pending", false⟩)]

def demoState : SessionEss :=
  ⟨jsStr "1.0.0", some (jsStr "Recursion"), 0, demoFields, 1234, some 1700000000000⟩

/-- The same state with a concept outside Latin-1 (CJK characters). -/
def uniState : SessionEss :=
  ⟨jsStr "1.0.0", some (jsStr "再帰"), 0, demoFields, 1234, some 1700000000000⟩

/-- C1, counterexample: on a well-formed Session State whose concept is a
unicode string beyond Latin-1, `btoa` throws inside `encodeState`, so
`decodeState(encodeState(S))` raises `'State encoding failed'` instead of
returning a state — the round trip fails for unicode concepts. -/
theorem C1_counterexample :
    (encodeState 7 uniState).bind decodeState =
      Except.error (jsStr "State encoding failed") ∧
    ∀ d : DecodedState, (encodeState 7 uniState).bind decodeState ≠ Except.ok d := by
  constructor
  · rfl
  · intro d h
    rw [show (encodeState 7 uniState).bind decodeState =
      Except.error (jsStr "State encoding failed") from rfl] at h
    cases h

/-- C1 (amended): for every Session State whose essential subset is
well-formed and whose strings are Latin-1 (code units below 256 — the
precondition `btoa` imposes; unicode concepts make encoding throw, see
`C1_counterexample`), and every draw of the random prefix digits,
`decodeState (encodeState S)` succeeds and returns a state whose
concept, current module index, token estimate, start time, and
per-field value, status and unlocked flag all equal those of `S`
(`decodedOf` is exactly that injection). -/
theorem C1_codec_roundtrip (S : SessionEss) (rnd : Nat) (h : latin1Ess S) :
    (encodeState rnd S).bind decodeState = Except.ok (decodedOf S) :=
  decodeState_encodeState S rnd h

/-- C1, witness: the round trip evaluated on a concrete seven-field state. -/
theorem C1_codec_roundtrip_witness :
    (encodeState 42 demoState).bind decodeState = Except.ok (decodedOf demoState) :=
  C1_codec_roundtrip demoState 42 (by decide)

/-! ## Claim C4 — decode rejection -/

/-- C4, counterexample: `FLS-AB12-eyJmIjp7fX0=` carries the correct tag
prefix (`validateCode` accepts it) and a corrupted payload — the base64
of `{"f":{}}`, which no `encodeState` call produces — yet `decodeState`
succeeds and returns a partially-populated state: version and concept
`undefined`, no fields, zeroed counters. -/
theorem C4_counterexample :
    decodeState (jsStr "FLS-AB12-eyJmIjp7fX0=") =
      Except.ok ⟨none, none, Json.num 0, [], Json.num 0, none⟩ ∧
    validateCode (jsStr "FLS-AB12-eyJmIjp7fX0=") = true := by
  have h1 : atob (lastSegment (jsStr "FLS-AB12-eyJmIjp7fX0=")) =
      some [123, 34, 102, 34, 58, 123, 125, 125] := by decide
  have h2 : parseJson [123, 34, 102, 34, 58, 123, 125, 125] =
      some (Json.obj [([102], Json.obj [])]) := by
    simp +decide [parseJson, parseValue, parseObjRest, parseMember, skipWs_cons,
      parseStrBody_key, objInsert]
  constructor
  · unfold decodeState
    rw [h1]
    simp +decide [h2, isNullJ, objGet, jEntries, decodeFields, jsOr, truthy, List.find?]
  · decide

/-- C4 (amended): `decodeState` does fail with the decode error on every
malformed or truncated code — whenever the hyphen-final payload segment
is not valid base64, or its decoding is not parseable JSON, the result
is the `'Invalid continuation code'` error and never a state.  (The
original claim fails for corrupted payloads that happen to be valid
base64-encoded JSON with an object `f` member: those decode into a
partially-populated state, see `C4_counterexample`.) -/
theorem C4_decode_rejects_malformed (code : JsStr)
    (h : ∀ js, atob (lastSegment code) = some js → parseJson js = none) :
    decodeState code = Except.error (jsStr "Invalid continuation code") := by
  unfold decodeState
  cases hA : atob (lastSegment code) with
  | none => rfl
  | some js => simp [h js hA]

/-- C4, witness: a code whose payload is not valid base64 is rejected. -/
theorem C4_decode_rejects_malformed_witness :
    decodeState (jsStr "FLS-XY99-!!!") = Except.error (jsStr "Invalid continuation code") :=
  C4_decode_rejects_malformed (jsStr "FLS-XY99-!!!") (by
    intro js hjs
    rw [show atob (lastSegment (jsStr "FLS-XY99-!!!")) = none from rfl] at hjs
    cases hjs)

/-! ## Claim C8 — continuation code format -/

theorem natDigs_lt10 {n : Nat} (h : n < 10) : natDigs n = [48 + n] := by
  rw [natDigs_eq, if_pos h]

theorem padStart2_digits {rnd : Nat} (h : rnd < 100) :
    ∃ d1 d2, padStart2 (natDigs rnd) = [d1, d2] ∧ isDig d1 = true ∧ isDig d2 = true := by
  by_cases h10 : rnd < 10
  · refine ⟨48, 48 + rnd, ?_, by decide, by simp [isDig] <;> omega⟩
    rw [natDigs_lt10 h10]
    simp [padStart2]
  · refine ⟨48 + rnd / 10, 48 + rnd % 10, ?_, by simp [isDig] <;> omega,
      by simp [isDig] <;> omega⟩
    have h1 : natDigs rnd = [48 + rnd / 10, 48 + rnd % 10] := by
      rw [natDigs_eq, if_neg h10, natDigs_lt10 (by omega : rnd / 10 < 10)]
      rfl
    rw [h1]
    simp [padStart2]

theorem btoa_ok_inv {s enc : JsStr} (h : btoa s = some enc) :
    (∀ x ∈ s, x < 256) ∧ enc = encB s := by
  unfold btoa at h
  split_ifs at h with hc
  rw [List.all_eq_true] at hc
  constructor
  · intro x hx
    simpa using hc x hx
  · simpa using h.symm

theorem i2c_not_lineterm : ∀ n < 64, isLineTerm (i2c n) = false := by decide

theorem encB_not_lineterm {b : List Nat} (hb : ∀ x ∈ b, x < 256) :
    ∀ c ∈ encB b, isLineTerm c = false := by
  intro c hc
  rcases encB_chars hb hc with ⟨n, hn, rfl⟩ | rfl
  · exact i2c_not_lineterm n hn
  · decide

theorem serEssential_ne_nil (S : SessionEss) : serEssential S ≠ [] := by
  simp [serEssential]

theorem encB_ne_nil {b : List Nat} (hb : b ≠ []) : encB b ≠ [] := by
  have := encB_len_ge hb
  intro h
  rw [h] at this
  simp at this

/-- A Session State with no concept set (possible: `encodeState` is
reachable from the completion panel whatever the state holds). -/
def nullConceptState : SessionEss :=
  ⟨jsStr "1.0.0", none, 0, demoFields, 0, none⟩

set_option maxRecDepth 40000 in
/-- C8, counterexample: with a null concept, `generatePrefix` returns
the bare tag `FLS` with no abbreviation and no two-digit disambiguator,
so the produced code `FLS-<payload>` does not match the documented
format `TAG-{abbrev}{2digits}-{payload}` — its own `validateCode`
rejects it. -/
theorem C8_counterexample :
    ∃ code, encodeState 7 nullConceptState = Except.ok code ∧ validateCode code = false := by
  refine ⟨_, rfl, by decide⟩

/-- C8 (amended): the documented format holds for the codes of states
whose concept is a non-empty string whose first three
consonant-filtered characters uppercase to at most three ASCII capital
letters.  Then for every random draw below 100, the code `encodeState`
produces matches `FLS-[A-Z]{0,3}\d{2}-payload` — `validateCode`
accepts it.  (For a null or empty concept the abbreviation block is
missing entirely, see `C8_counterexample`; a concept of digits or
punctuation, or one whose uppercasing expands past three letters such
as `ßßß`, also escapes the documented character class.) -/
theorem C8_code_format (S : SessionEss) (rnd : Nat) (c : JsStr) (code : JsStr)
    (hc : S.concept = some c) (hne : c ≠ [])
    (hab : ∀ x ∈ toUpperJs ((c.filter (fun ch => !isVowelOrWs ch)).take 3), isUpperC x = true)
    (hlen : (toUpperJs ((c.filter (fun ch => !isVowelOrWs ch)).take 3)).length ≤ 3)
    (hrnd : rnd < 100)
    (henc : encodeState rnd S = Except.ok code) :
    validateCode code = true := by
  unfold encodeState at henc
  cases hB : btoa (serEssential S) with
  | none => rw [hB] at henc; cases henc
  | some enc =>
    rw [hB] at henc
    obtain ⟨hlt, henc2⟩ := btoa_ok_inv hB
    have hcode : code = generatePrefix rnd S.concept ++ (45 :: enc) := by
      cases henc
      rfl
    rw [hc] at hcode
    simp only [ generatePrefix] at hcode
    rw [if_neg hne] at hcode
    set ab := toUpperJs ((c.filter (fun ch => !isVowelOrWs ch)).take 3) with hABdef
    obtain ⟨d1, d2, hpad, hd1, hd2⟩ := padStart2_digits hrnd
    have hcode2 : code = 70 :: 76 :: 83 :: 45 ::
        (ab ++ (d1 :: d2 :: 45 :: enc)) := by
      rw [hcode, hpad]
      simp [jsStr]
    have htake : (ab ++ (d1 :: d2 :: 45 :: enc)).take ab.length = ab := by
      simpa using List.take_left ab (d1 :: d2 :: 45 :: enc)
    have hdrop : (ab ++ (d1 :: d2 :: 45 :: enc)).drop ab.length =
        d1 :: d2 :: 45 :: enc := by
      simpa using List.drop_left ab (d1 :: d2 :: 45 :: enc)
    have hmt : matchTail (ab ++ (d1 :: d2 :: 45 :: enc)) ab.length = true := by
      unfold matchTail
      rw [htake, hdrop]
      have hdrop2 : (ab ++ (d1 :: d2 :: 45 :: enc)).drop (ab.length + 2) = 45 :: enc := by
        rw [← List.drop_drop]
        rw [hdrop]
        rfl
      rw [hdrop2]
      have hne2 : enc.isEmpty = false := by
        rw [henc2]
        simp [List.isEmpty_iff]
        exact encB_ne_nil (serEssential_ne_nil S)
      have hlt2 : ∀ x ∈ enc, isLineTerm x = false := by
        rw [henc2]
        exact encB_not_lineterm hlt
      simp [hd1, hd2, hne2]
      constructor
      · intro x hx
        exact hab x hx
      · intro x hx
        exact hlt2 x hx
    rw [hcode2]
    have h03 : ab.length = 0 ∨ ab.length = 1 ∨ ab.length = 2 ∨ ab.length = 3 := by omega
    unfold validateCode
    rcases h03 with h | h | h | h <;> rw [h] at hmt <;> simp [hmt]

set_option maxRecDepth 40000 in
/-- C8, witness: a concept whose consonant abbreviation is three ASCII
letters yields a format-valid code. -/
theorem C8_code_format_witness : validateCode
    ((encodeState 42 demoState).toOption.getD []) = true := by
  have h : encodeState 42 demoState =
      Except.ok ((encodeState 42 demoState).toOption.getD []) := rfl
  exact C8_code_format demoState 42 (jsStr "Recursion") _ rfl (by decide) (by decide)
    (by decide) (by decide) h

/-! ## Context Manager (`src/unnamed/part_004`, contextManager.js)

The compression thresholds come from `architecture.json` / environment
variables, so they are parameters here (`CMConfig`); the spec fixes only
`SOFT < HARD < EMERGENCY`.  The marker-scanning helpers model the
JavaScript regexes over code units: a match is searched position by
position, with the greedy/lazy behaviour of each pattern reproduced
(noted inline).  `toLowerJs` maps ASCII letters only, which is exact for
every pattern used here (they are ASCII). -/

/-- One conversational turn: `{role, content}`. -/
structure Msg where
  role : JsStr
  content : JsStr

/-- Compression thresholds (`soft < hard < emergency` per the spec). -/
structure CMConfig where
  soft : Nat
  hard : Nat
  emergency : Nat

def isPrefixL : JsStr → JsStr → Bool
  | [], _ => true
  | _ :: _, [] => false
  | a :: as, b :: bs => a == b && isPrefixL as bs

/-- `String.prototype.includes`. -/
def hasSub (s sub : JsStr) : Bool := s.tails.any (fun t => isPrefixL sub t)

/-- JavaScript regex `\s`. -/
def isJsWsCh (c : Nat) : Bool :=
  c == 9 || c == 10 || c == 11 || c == 12 || c == 13 || c == 32 || c == 160 ||
  c == 0x1680 || (0x2000 ≤ c && c ≤ 0x200A) || c == 0x2028 || c == 0x2029 ||
  c == 0x202F || c == 0x205F || c == 0x3000 || c == 0xFEFF

/-- JavaScript regex `\w`. -/
def isWordCh (c : Nat) : Bool :=
  (48 ≤ c && c ≤ 57) || (65 ≤ c && c ≤ 90) || (97 ≤ c && c ≤ 122) || c == 95

def toLowerCh (c : Nat) : Nat := if 65 ≤ c ∧ c ≤ 90 then c + 32 else c

def toLowerJs (s : JsStr) : JsStr := s.map toLowerCh

/-- `/Field:\s*(\w+)/` at the current position. -/
def matchFieldAt (s : JsStr) : Option JsStr :=
  if isPrefixL (jsStr "Field:") s then
    let w := ((s.drop 6).dropWhile isJsWsCh).takeWhile isWordCh
    if w = [] then none else some w
  else none

/-- `content.match(/Field:\s*(\w+)/)`: first position where the whole
pattern matches. -/
def matchField : JsStr → Option JsStr
  | [] => none
  | c :: r =>
    match matchFieldAt (c :: r) with
    | some w => some w
    | none => matchField r

/-- `/Concept:\s*"?([^"\n]+)"?/` at the current position (an optional
quote is consumed greedily; the capture must then be non-empty). -/
def matchConceptAt (s : JsStr) : Option JsStr :=
  if isPrefixL (jsStr "Concept:") s then
    let after := (s.drop 8).dropWhile isJsWsCh
    let after2 := if after.take 1 = [34] then after.drop 1 else after
    let cap := after2.takeWhile (fun c => c != 34 && c != 10)
    if cap = [] then none else some cap
  else none

def matchConcept : JsStr → Option JsStr
  | [] => none
  | c :: r =>
    match matchConceptAt (c :: r) with
    | some w => some w
    | none => matchConcept r

/-- `/misconception[:\s]+([^.]+)/i` at the current position.  The
greedy separator run backtracks one character when the capture would
otherwise be empty (the regex engine's behaviour). -/
def matchMiscAt (s : JsStr) : Option JsStr :=
  if toLowerJs (s.take 13) = jsStr "misconception" then
    let after := s.drop 13
    let sep := after.takeWhile (fun c => c == 58 || isJsWsCh c)
    if sep = [] then none
    else
      let cap := (after.dropWhile (fun c => c == 58 || isJsWsCh c)).takeWhile (fun c => c != 46)
      if cap ≠ [] then some cap
      else if 2 ≤ sep.length then some (sep.drop (sep.length - 1))
      else none
  else none

def matchMisc : JsStr → Option JsStr
  | [] => none
  | c :: r =>
    match matchMiscAt (c :: r) with
    | some w => some w
    | none => matchMisc r

/-- Tail of `/attempt.*?:\s*"([^"]+)"/` after a candidate `:` — skip
whitespace, require a quoted non-empty capture with a closing quote. -/
def attemptTail (after : JsStr) : Option JsStr :=
  let w := after.dropWhile isJsWsCh
  if w.take 1 = [34] then
    let cap := (w.drop 1).takeWhile (fun c => c != 34)
    if cap = [] then none
    else if ((w.drop 1).drop cap.length).take 1 = [34] then some cap else none
  else none

/-- Lazy `.*?:` search: scan for the first `:` (never crossing a line
terminator, which `.` does not match) whose tail matches. -/
def attemptGap : JsStr → Option JsStr
  | [] => none
  | c :: r =>
    if c == 58 then
      match attemptTail r with
      | some cap => some cap
      | none => attemptGap r
    else if isLineTerm c then none
    else attemptGap r

def matchAttemptAt (s : JsStr) : Option JsStr :=
  if isPrefixL (jsStr "attempt") s then attemptGap (s.drop 7) else none

def matchAttempt : JsStr → Option JsStr
  | [] => none
  | c :: r =>
    match matchAttemptAt (c :: r) with
    | some w => some w
    | none => matchAttempt r

/-- The Learning State Snapshot accumulated by
`ContextManager.extractState`. -/
structure LearnState where
  concept : Option JsStr
  currentField : Option JsStr
  completedFields : List JsStr
  approvedCount : Nat
  totalFields : Nat
  latestAttempt : JsStr
  misconceptionsCaught : List JsStr

def initLearnState : LearnState := ⟨none, none, [], 0, 7, [], []⟩

/-- One iteration of the `messages.forEach` scan in `extractState`. -/
def extractStep (st : LearnState) (msg : Msg) : LearnState :=
  let content := msg.content
  let st1 :=
    if st.concept = none ∧ hasSub content (jsStr "Concept:") then
      match matchConcept content with
      | some m => { st with concept := some m }
      | none => st
    else st
  let st2 :=
    if hasSub content (jsStr "Field:") then
      match matchField content with
      | some m => { st1 with currentField := some m }
      | none => st1
    else st1
  let st3 :=
    if hasSub content (jsStr "APPROVED") then
      { st2 with
        approvedCount := st2.approvedCount + 1
        completedFields :=
          match st2.currentField with
          | some cf =>
              if cf ∈ st2.completedFields then st2.completedFields
              else st2.completedFields ++ [cf]
          | none => st2.completedFields }
    else st2
  let st4 :=
    if hasSub (toLowerJs content) (jsStr "misconception") then
      match matchMisc content with
      | some m => { st3 with misconceptionsCaught := st3.misconceptionsCaught ++ [m] }
      | none => st3
    else st3
  if msg.role == jsStr "user" && hasSub content (jsStr "attempt") then
    match matchAttempt content with
    | some m => { st4 with latestAttempt := m }
    | none => st4
  else st4

/-- `ContextManager.extractState(messages)`. -/
def extractState (messages : List Msg) : LearnState :=
  messages.foldl extractStep initLearnState

/-- Template interpolation of a nullable string (`null` renders as the
text `null`). -/
def jsShow : Option JsStr → JsStr
  | none => jsStr "null"
  | some s => s

def joinSep (sep : JsStr) : List JsStr → JsStr
  | [] => []
  | [x] => x
  | x :: xs => x ++ sep ++ joinSep sep xs

/-- `ContextManager.buildStateContext(state)` (the hard-compression
snapshot text). -/
def buildStateContext (st : LearnState) : JsStr :=
  jsStr "Teaching concept: \"" ++ jsShow st.concept ++
  jsStr "\"\n\nProgress:\n- Completed: " ++ joinSep (jsStr ", ") st.completedFields ++
  jsStr "\n- Current: " ++ jsShow st.currentField ++
  jsStr "\n- Approved: " ++ natDigs st.approvedCount ++ jsStr "/" ++
  natDigs st.totalFields ++ jsStr "\n\n" ++
  (if st.misconceptionsCaught.length > 0 then
    jsStr "Misconceptions caught: " ++ joinSep (jsStr "; ") st.misconceptionsCaught
  else []) ++
  jsStr "\n\nContinue teaching from current position."

/-- The single synthetic turn text of `emergencyCompress`. -/
def emergencyContent (st : LearnState) : JsStr :=
  jsStr "[Context restored from checkpoint]\nConcept: " ++ jsShow st.concept ++
  jsStr "\nCurrent field: " ++ jsShow st.currentField ++
  jsStr "\nCompleted fields: " ++ joinSep (jsStr ", ") st.completedFields ++
  jsStr "\nProgress: " ++ natDigs st.approvedCount ++ jsStr "/" ++
  natDigs st.totalFields ++ jsStr " fields approved\n\nUser's current attempt: \"" ++
  st.latestAttempt ++ jsStr "\""

/-- One exchange record of `summarizeExchanges`. -/
structure Exchange where
  field : Option JsStr
  attempts : Nat
  approved : Bool

/-- One iteration of the `messages.forEach` scan in
`summarizeExchanges`. -/
def summarizeStep (acc : List Exchange × Exchange) (msg : Msg) :
    List Exchange × Exchange :=
  let (exs, cur) := acc
  let (exs1, cur1) :=
    if hasSub msg.content (jsStr "Field:") then
      match matchField msg.content with
      | some m =>
          (match cur.field with
           | some _ => exs ++ [cur]
           | none => exs, (⟨some m, 0, false⟩ : Exchange))
      | none => (exs, cur)
    else (exs, cur)
  let cur2 :=
    if msg.role == jsStr "user" && hasSub msg.content (jsStr "attempt") then
      { cur1 with attempts := cur1.attempts + 1 }
    else cur1
  let cur3 :=
    if hasSub msg.content (jsStr "APPROVED") then { cur2 with approved := true } else cur2
  (exs1, cur3)

/-- `ContextManager.summarizeExchanges(messages)`. -/
def summarizeExchanges (messages : List Msg) : JsStr :=
  let p := messages.foldl summarizeStep ([], ⟨none, 0, false⟩)
  let exchanges :=
    match p.2.field with
    | some _ => p.1 ++ [p.2]
    | none => p.1
  joinSep (jsStr "; ") (exchanges.map (fun ex =>
    jsShow ex.field ++ jsStr ": " ++ natDigs ex.attempts ++ jsStr " attempts, " ++
    (if ex.approved then jsStr "approved" else jsStr "in progress")))

/-- `ContextManager.estimateTokens(messages)`:
`Math.ceil(messages.map(m => m.content).join(' ').length / 4)`. -/
def estimateTokens (messages : List Msg) : Nat :=
  ((joinSep [32] (messages.map (fun m => m.content))).length + 3) / 4

/-- `ContextManager.softCompress(messages)`. -/
def softCompress (messages : List Msg) : List Msg :=
  if messages.length ≤ 10 then messages
  else
    messages.take 2 ++
      (⟨jsStr "user", jsStr "[Previous conversation summary: " ++
        summarizeExchanges ((messages.drop 2).take (messages.length - 8)) ++ jsStr "]"⟩ ::
        messages.drop (messages.length - 6))

/-- `ContextManager.hardCompress(messages)`. -/
def hardCompress (messages : List Msg) : List Msg :=
  ⟨jsStr "user", buildStateContext (extractState messages)⟩ ::
    messages.drop (messages.length - 3)

/-- `ContextManager.emergencyCompress(messages)`. -/
def emergencyCompress (messages : List Msg) : List Msg :=
  [⟨jsStr "user", emergencyContent (extractState messages)⟩]

/-- `ContextManager.buildContext(conversationHistory, newMessage)`. -/
def buildContext (cfg : CMConfig) (conversationHistory : List Msg)
    (newMessage : Option Msg) : List Msg :=
  let messages := conversationHistory ++
    (match newMessage with | some m => [m] | none => [])
  let tokenEstimate := estimateTokens messages
  if cfg.emergency ≤ tokenEstimate then emergencyCompress messages
  else if cfg.hard ≤ tokenEstimate then hardCompress messages
  else if cfg.soft ≤ tokenEstimate then softCompress messages
  else messages

/-- `ContextManager.checkThreshold(tokenCount)`. -/
def checkThreshold (cfg : CMConfig) (tokenCount : Nat) : JsStr :=
  if cfg.emergency ≤ tokenCount then jsStr "emergency"
  else if cfg.hard ≤ tokenCount then jsStr "hard"
  else if cfg.soft ≤ tokenCount then jsStr "soft"
  else jsStr "normal"

/-- The advice record of `getCompressionAdvice`. -/
structure Advice where
  level : JsStr
  message : JsStr
  shouldCompress : Bool
  mustCompress : Bool

/-- `ContextManager.getCompressionAdvice(tokenCount)`. -/
def getCompressionAdvice (cfg : CMConfig) (tokenCount : Nat) : Advice :=
  let threshold := checkThreshold cfg tokenCount
  { level := threshold
    message :=
      if threshold = jsStr "normal" then jsStr "Context is healthy"
      else if threshold = jsStr "soft" then
        jsStr "Consider compressing old conversation history"
      else if threshold = jsStr "hard" then
        jsStr "Compression recommended to maintain performance"
      else jsStr "Critical: Context must be compressed or checkpointed"
    shouldCompress := threshold ≠ jsStr "normal"
    mustCompress := threshold = jsStr "emergency" }

/-- C2: for a history of exactly 20 turns, an estimate of `SOFT - 1`
passes the history through unchanged, while an estimate of exactly
`SOFT` yields the first 2 turns, one synthetic summary turn covering
turns 3..14, and the last 6 turns — 9 turns in all. -/
theorem C2_soft_boundary (cfg : CMConfig) (msgs : List Msg)
    (h1 : 1 ≤ cfg.soft) (h2 : cfg.soft < cfg.hard) (h3 : cfg.hard < cfg.emergency)
    (hlen : msgs.length = 20) :
    (estimateTokens msgs = cfg.soft - 1 → buildContext cfg msgs none = msgs) ∧
    (estimateTokens msgs = cfg.soft →
      buildContext cfg msgs none =
        msgs.take 2 ++
          (⟨jsStr "user", jsStr "[Previous conversation summary: " ++
            summarizeExchanges ((msgs.drop 2).take 12) ++ jsStr "]"⟩ ::
            msgs.drop 14) ∧
      (buildContext cfg msgs none).length = 9) := by
  constructor
  · intro he
    have e1 : ¬ (cfg.emergency ≤ estimateTokens msgs) := by omega
    have e2 : ¬ (cfg.hard ≤ estimateTokens msgs) := by omega
    have e3 : ¬ (cfg.soft ≤ estimateTokens msgs) := by omega
    simp [buildContext, e1, e2, e3]
  · intro he
    have e1 : ¬ (cfg.emergency ≤ estimateTokens msgs) := by omega
    have e2 : ¬ (cfg.hard ≤ estimateTokens msgs) := by omega
    have e3 : cfg.soft ≤ estimateTokens msgs := by omega
    refine ⟨?_, ?_⟩
    · simp [buildContext, e1, e2, e3, softCompress, hlen]
    · simp [buildContext, e1, e2, e3, softCompress, hlen]

/-- Concrete 20-turn history for the C2 witness. -/
def c2msgs : List Msg :=
  ⟨jsStr "user", jsStr "xx"⟩ :: List.replicate 19 ⟨jsStr "assistant", []⟩

theorem C2_soft_boundary_witness :
    (estimateTokens c2msgs = 5 → buildContext ⟨6, 100, 200⟩ c2msgs none = c2msgs) ∧
    (estimateTokens c2msgs = 6 →
      buildContext ⟨6, 100, 200⟩ c2msgs none =
        c2msgs.take 2 ++
          (⟨jsStr "user", jsStr "[Previous conversation summary: " ++
            summarizeExchanges ((c2msgs.drop 2).take 12) ++ jsStr "]"⟩ ::
            c2msgs.drop 14) ∧
      (buildContext ⟨6, 100, 200⟩ c2msgs none).length = 9) :=
  C2_soft_boundary ⟨6, 100, 200⟩ c2msgs (by decide) (by decide) (by decide) (by decide)

/-- C3: whenever the token estimate reaches the EMERGENCY threshold,
`buildContext` returns exactly one synthetic turn (the Learning State
Snapshot), and the advice for that estimate reports level
`emergency` with `mustCompress = true`. -/
theorem C3_emergency_tier (cfg : CMConfig) (msgs : List Msg)
    (h : cfg.emergency ≤ estimateTokens msgs) :
    buildContext cfg msgs none = [⟨jsStr "user", emergencyContent (extractState msgs)⟩] ∧
    (buildContext cfg msgs none).length = 1 ∧
    (getCompressionAdvice cfg (estimateTokens msgs)).level = jsStr "emergency" ∧
    (getCompressionAdvice cfg (estimateTokens msgs)).mustCompress = true := by
  refine ⟨?_, ?_, ?_, ?_⟩ <;>
    simp [buildContext, emergencyCompress, getCompressionAdvice, checkThreshold, h]

theorem C3_emergency_tier_witness :
    buildContext ⟨1, 2, 3⟩ [⟨jsStr "user", jsStr "xxxxxxxxxxxx"⟩] none =
      [⟨jsStr "user",
        emergencyContent (extractState [⟨jsStr "user", jsStr "xxxxxxxxxxxx"⟩])⟩] ∧
    (buildContext ⟨1, 2, 3⟩ [⟨jsStr "user", jsStr "xxxxxxxxxxxx"⟩] none).length = 1 ∧
    (getCompressionAdvice ⟨1, 2, 3⟩
      (estimateTokens [⟨jsStr "user", jsStr "xxxxxxxxxxxx"⟩])).level = jsStr "emergency" ∧
    (getCompressionAdvice ⟨1, 2, 3⟩
      (estimateTokens [⟨jsStr "user", jsStr "xxxxxxxxxxxx"⟩])).mustCompress = true :=
  C3_emergency_tier ⟨1, 2, 3⟩ [⟨jsStr "user", jsStr "xxxxxxxxxxxx"⟩] (by decide)

/-- C9: in the soft tier (estimate at or above SOFT, below HARD and
EMERGENCY), a history of at most 10 turns is returned completely
unchanged; the first-2/summary/last-6 restructuring happens exactly
when the history has 11 or more turns. -/
theorem C9_small_history_passthrough (cfg : CMConfig) (msgs : List Msg)
    (hs : cfg.soft ≤ estimateTokens msgs) (hh : estimateTokens msgs < cfg.hard)
    (he : estimateTokens msgs < cfg.emergency) :
    (msgs.length ≤ 10 → buildContext cfg msgs none = msgs) ∧
    (11 ≤ msgs.length →
      buildContext cfg msgs none =
        msgs.take 2 ++
          (⟨jsStr "user", jsStr "[Previous conversation summary: " ++
            summarizeExchanges ((msgs.drop 2).take (msgs.length - 8)) ++ jsStr "]"⟩ ::
            msgs.drop (msgs.length - 6))) := by
  have e1 : ¬ (cfg.emergency ≤ estimateTokens msgs) := by omega
  have e2 : ¬ (cfg.hard ≤ estimateTokens msgs) := by omega
  constructor
  · intro hlen
    simp [buildContext, e1, e2, hs, softCompress, hlen]
  · intro hlen
    have hgt : ¬ (msgs.length ≤ 10) := by omega
    simp [buildContext, e1, e2, hs, softCompress, hgt]

/-- Concrete 3-turn soft-tier history for the C9 witness. -/
def c9msgs : List Msg := List.replicate 3 ⟨jsStr "user", jsStr "xxxx"⟩

theorem C9_small_history_passthrough_witness :
    (c9msgs.length ≤ 10 → buildContext ⟨1, 100, 200⟩ c9msgs none = c9msgs) ∧
    (11 ≤ c9msgs.length →
      buildContext ⟨1, 100, 200⟩ c9msgs none =
        c9msgs.take 2 ++
          (⟨jsStr "user", jsStr "[Previous conversation summary: " ++
            summarizeExchanges ((c9msgs.drop 2).take (c9msgs.length - 8)) ++ jsStr "]"⟩ ::
            c9msgs.drop (c9msgs.length - 6))) :=
  C9_small_history_passthrough ⟨1, 100, 200⟩ c9msgs (by decide) (by decide) (by decide)

/-! ## State Manager (`src/src/utils/stateManager.js`)

Persisted records are modelled at the `Json` level (`localStorage`
hands back an optional string, `JSON.parse` an optional `Json`).
`Date.now()` is the parameter `now`.  Model restriction: spreading a
string or array (`\x7b...s\x7d` creating index properties) is not
modelled by `decompressState`; every theorem below applies it to
objects (or to absent/`null`/primitive values, where the spread
contributes no properties), matching how the repository stores
states. -/

/-- JavaScript member access `j.k` as it can throw: `none` is the
`TypeError` raised on `null`; otherwise the (possibly `undefined`)
property value. -/
def jsMember (j : Json) (k : JsStr) : Option (Option Json) :=
  match j with
  | Json.null => none
  | _ => some (objGet j k)

/-- One field record of `StateManager.createInitialState`. -/
def initField (u : Bool) : Json :=
  Json.obj [(jsStr "value", Json.str []),
            (jsStr "status", Json.str (jsStr "pending")),
            (jsStr "unlocked", Json.bool u),
            (jsStr "attempts", Json.arr []),
            (jsStr "revisionHistory", Json.arr [])]

/-- The `fields` object of `createInitialState`: only `definition`
starts unlocked. -/
def initFields : List (JsStr × Json) :=
  [(jsStr "definition", initField true),
   (jsStr "mechanism", initField false),
   (jsStr "example", initField false),
   (jsStr "analogy", initField false),
   (jsStr "why_matters", initField false),
   (jsStr "misconception", initField false),
   (jsStr "integration", initField false)]

/-- `StateManager.createInitialState()` (`STATE_VERSION = '1.0.0'`). -/
def createInitialState (now : Nat) : Json :=
  Json.obj
    [(jsStr "version", Json.str (jsStr "1.0.0")),
     (jsStr "concept", Json.null),
     (jsStr "modules", Json.arr []),
     (jsStr "currentModule", Json.num 0),
     (jsStr "fields", Json.obj initFields),
     (jsStr "conversationHistory", Json.arr []),
     (jsStr "tokenCount", Json.num 0),
     (jsStr "startTime", Json.null),
     (jsStr "lastUpdate", Json.num (Int.ofNat now)),
     (jsStr "checkpoints", Json.arr []),
     (jsStr "emotionalState",
       Json.obj [(jsStr "frustrationIndicators", Json.arr []),
                 (jsStr "encouragementGiven", Json.num 0)])]

/-- `StateManager.migrateState(oldState)`: always a fresh initial
state. -/
def migrateState (oldState : Json) (now : Nat) : Json := createInitialState now

/-- `StateManager.decompressState(compressed)`:
`\x7b...compressed, checkpoints: []\x7d`.  The argument is optional so the
`undefined`/`null` spreads (no properties) are covered. -/
def decompressState (x : Option Json) : Json :=
  match x with
  | some (Json.obj fs) => Json.obj (objInsert fs (jsStr "checkpoints") (Json.arr []))
  | _ => Json.obj [(jsStr "checkpoints", Json.arr [])]

/-- `StateManager.restoreState()`: `stored` is what
`localStorage.getItem` returned. -/
def restoreState (stored : Option JsStr) (now : Nat) : Option Json :=
  match stored with
  | none => none
  | some s =>
    if s = [] then none
    else
      match parseJson s with
      | none => none
      | some state =>
        match jsMember state (jsStr "version") with
        | none => none
        | some v =>
          if jsEqStr v (jsStr "1.0.0") then some (decompressState (some state))
          else some (migrateState state now)

/-- `StateManager.restoreCheckpoint()`: no version comparison at
all — the stored checkpoint's `state` member goes straight to
`decompressState`. -/
def restoreCheckpoint (stored : Option JsStr) : Option Json :=
  match stored with
  | none => none
  | some s =>
    if s = [] then none
    else
      match parseJson s with
      | none => none
      | some cp =>
        match jsMember cp (jsStr "state") with
        | none => none
        | some v => some (decompressState v)

theorem objGet_objInsert_ne (fs : List (JsStr × Json)) (k k' : JsStr) (v : Json)
    (h : k' ≠ k) :
    objGet (Json.obj (objInsert fs k v)) k' = objGet (Json.obj fs) k' := by
  have hk : (k == k') = false := by
    simp only [beq_eq_false_iff_ne]
    exact fun e => h e.symm
  have hmap : ∀ l : List (JsStr × Json),
      List.find? (fun e => e.1 == k') (l.map (fun e => if (e.1 == k) = true then (k, v) else e)) =
      List.find? (fun e => e.1 == k') l := by
    intro l
    induction l with
    | nil => rfl
    | cons e rest ih =>
      by_cases he : (e.1 == k) = true
      · have he2 : (e.1 == k') = false := by
          simp only [beq_eq_false_iff_ne]
          simp only [beq_iff_eq] at he
          exact he ▸ fun e => h e.symm
        rw [List.map_cons, if_pos he]
        simp only [List.find?, hk, he2, ih]
      · simp only [List.map_cons, he, if_neg, List.find?, Bool.false_eq_true,
          not_false_iff, ite_false]
        cases hc : (e.1 == k') with
        | true => rfl
        | false => exact ih
  have happ : ∀ l : List (JsStr × Json),
      List.find? (fun e => e.1 == k') (l ++ [(k, v)]) =
      List.find? (fun e => e.1 == k') l := by
    intro l
    induction l with
    | nil => simp [List.find?, hk]
    | cons e rest ih =>
      simp only [List.cons_append, List.find?]
      cases hc : (e.1 == k') with
      | true => rfl
      | false => exact ih
  simp only [objGet, objInsert]
  split
  · rw [hmap]
  · rw [happ]

theorem parseStrBody_close (r : JsStr) : parseStrBody (34 :: r) = some ([], r) := by
  unfold parseStrBody
  simp

theorem parseStrBody_cons_plain (k : Nat) (hk : 32 ≤ k) (h34 : k ≠ 34) (h92 : k ≠ 92)
    (s : JsStr) :
    parseStrBody (k :: s) = (parseStrBody s).map (fun p => (k :: p.1, p.2)) := by
  unfold parseStrBody
  rw [if_neg h34, if_neg h92, if_neg (by omega), ← parseStrBody.eq_def]

theorem find?_cons_false {α} (p : α → Bool) (a : α) (l : List α) (h : p a = false) :
    List.find? p (a :: l) = List.find? p l := by
  simp [List.find?, h]

theorem find?_cons_true {α} (p : α → Bool) (a : α) (l : List α) (h : p a = true) :
    List.find? p (a :: l) = some a := by
  simp [List.find?, h]

/-- C5: restoring a persisted record whose `version` member is not the
string `1.0.0` (including records with no `version` member at all)
yields a fresh initial state: every field has empty value, status
`pending`, no attempts, and only `definition` is unlocked. -/
theorem C5_version_mismatch_fresh (s : JsStr) (state : Json) (now : Nat)
    (hs : s ≠ []) (hp : parseJson s = some state)
    (hv : ∃ v, jsMember state (jsStr "version") = some v ∧
      jsEqStr v (jsStr "1.0.0") = false) :
    restoreState (some s) now = some (createInitialState now) ∧
    objGet (createInitialState now) (jsStr "fields") = some (Json.obj initFields) ∧
    ∀ p ∈ initFields,
      objGet p.2 (jsStr "value") = some (Json.str []) ∧
      objGet p.2 (jsStr "status") = some (Json.str (jsStr "pending")) ∧
      objGet p.2 (jsStr "attempts") = some (Json.arr []) ∧
      objGet p.2 (jsStr "unlocked") = some (Json.bool (p.1 == jsStr "definition")) := by
  obtain ⟨v, hv1, hv2⟩ := hv
  refine ⟨?_, ?_, ?_⟩
  · simp [restoreState, hs, hp, hv1, hv2, migrateState]
  · simp only [createInitialState, objGet]
    rw [find?_cons_false _ _ _ (by decide), find?_cons_false _ _ _ (by decide),
        find?_cons_false _ _ _ (by decide), find?_cons_false _ _ _ (by decide),
        find?_cons_true _ _ _ (by decide)]
    rfl
  · intro p hp
    fin_cases hp <;> exact ⟨rfl, rfl, rfl, rfl⟩

theorem C5_version_mismatch_fresh_witness :
    restoreState (some (jsStr "\x7b\x22version\x22:\x220.9.0\x22\x7d")) 7 =
      some (createInitialState 7) ∧
    objGet (createInitialState 7) (jsStr "fields") = some (Json.obj initFields) ∧
    ∀ p ∈ initFields,
      objGet p.2 (jsStr "value") = some (Json.str []) ∧
      objGet p.2 (jsStr "status") = some (Json.str (jsStr "pending")) ∧
      objGet p.2 (jsStr "attempts") = some (Json.arr []) ∧
      objGet p.2 (jsStr "unlocked") = some (Json.bool (p.1 == jsStr "definition")) := by
  have hp : parseJson (jsStr "\x7b\x22version\x22:\x220.9.0\x22\x7d") =
      some (Json.obj [(jsStr "version", Json.str (jsStr "0.9.0"))]) := by
    rw [show jsStr "\x7b\x22version\x22:\x220.9.0\x22\x7d" =
      [123, 34, 118, 101, 114, 115, 105, 111, 110, 34, 58, 34,
       48, 46, 57, 46, 48, 34, 125] from rfl]
    simp +decide [parseJson, parseValue, parseObjRest, parseMember, skipWs_cons,
      parseStrBody_close, parseStrBody_cons_plain, objInsert]
  exact C5_version_mismatch_fresh _ _ 7 (by decide) hp
    ⟨some (Json.str (jsStr "0.9.0")), rfl, rfl⟩

/-- C10: `restoreCheckpoint` performs no version comparison: for every
stored checkpoint whose `state` member is an object — whatever its
`version` member holds — the result is that object with `checkpoints`
reset to `[]`, every other member exactly as stored.  (The
fresh-initial-state fallback of C5 lives only in `restoreState`.) -/
theorem C10_restoreCheckpoint_skips_version (s : JsStr) (cp : Json)
    (fs : List (JsStr × Json)) (hs : s ≠ []) (hp : parseJson s = some cp)
    (hst : jsMember cp (jsStr "state") = some (some (Json.obj fs))) :
    restoreCheckpoint (some s) =
      some (Json.obj (objInsert fs (jsStr "checkpoints") (Json.arr []))) ∧
    ∀ k, k ≠ jsStr "checkpoints" →
      objGet (Json.obj (objInsert fs (jsStr "checkpoints") (Json.arr []))) k =
        objGet (Json.obj fs) k := by
  constructor
  · simp [restoreCheckpoint, hs, hp, hst, decompressState]
  · intro k hk
    exact objGet_objInsert_ne fs _ k _ hk

theorem C10_restoreCheckpoint_skips_version_witness :
    restoreCheckpoint (some (jsStr "\x7b\x22state\x22:\x7b\x22version\x22:\x220.1\x22\x7d\x7d")) =
      some (Json.obj (objInsert [(jsStr "version", Json.str (jsStr "0.1"))]
        (jsStr "checkpoints") (Json.arr []))) ∧
    ∀ k, k ≠ jsStr "checkpoints" →
      objGet (Json.obj (objInsert [(jsStr "version", Json.str (jsStr "0.1"))]
        (jsStr "checkpoints") (Json.arr []))) k =
        objGet (Json.obj [(jsStr "version", Json.str (jsStr "0.1"))]) k := by
  have hp : parseJson (jsStr "\x7b\x22state\x22:\x7b\x22version\x22:\x220.1\x22\x7d\x7d") =
      some (Json.obj [(jsStr "state",
        Json.obj [(jsStr "version", Json.str (jsStr "0.1"))])]) := by
    rw [show jsStr "\x7b\x22state\x22:\x7b\x22version\x22:\x220.1\x22\x7d\x7d" =
      [123, 34, 115, 116, 97, 116, 101, 34, 58, 123, 34, 118, 101, 114, 115,
       105, 111, 110, 34, 58, 34, 48, 46, 49, 34, 125, 125] from rfl]
    simp +decide [parseJson, parseValue, parseObjRest, parseMember, skipWs_cons,
      parseStrBody_close, parseStrBody_cons_plain, objInsert]
  exact C10_restoreCheckpoint_skips_version _ _ _ (by decide) hp rfl

/-! ## Claude service verdict extraction
(`src/src/services/claudeService.js`, `extractJSON` / `checkAccuracy`)

The three regexes of `extractJSON` are modelled over code units with
the engine's leftmost-match and greedy/lazy behaviour reproduced: the
lazy gap of a fenced block stops at the first closing fence (a
trailing newline preferred into the fence, as the greedy trailing
escape does), and the bare-object regex runs from the first
opening brace to the last closing brace of the text. -/

/-- `String.prototype.trim` (JavaScript whitespace). -/
def jsTrim (s : JsStr) : JsStr :=
  ((s.dropWhile isJsWsCh).reverse.dropWhile isJsWsCh).reverse

/-- Lazy `([\s\S]*?)` up to the closing `` \n?``` `` fence: the shortest
capture whose remainder opens with the fence, the newline variant
preferred at equal length. -/
def lazyToTicks : JsStr → Option JsStr
  | [] => none
  | c :: r =>
    if isPrefixL [10, 96, 96, 96] (c :: r) then some []
    else if isPrefixL [96, 96, 96] (c :: r) then some []
    else (lazyToTicks r).map (c :: ·)

/-- One position of `` /```json\n?([\s\S]*?)\n?```/ ``.  (Consuming the
optional newline greedily never changes matchability here: a fence
occurrence in the tail survives dropping the one leading newline.) -/
def matchJsonBlockAt (s : JsStr) : Option JsStr :=
  if isPrefixL (jsStr "```json") s then
    let rest := s.drop 7
    lazyToTicks (if rest.take 1 = [10] then rest.drop 1 else rest)
  else none

def matchJsonBlock : JsStr → Option JsStr
  | [] => none
  | c :: r =>
    match matchJsonBlockAt (c :: r) with
    | some w => some w
    | none => matchJsonBlock r

/-- One position of `` /```\n?([\s\S]*?)\n?```/ ``. -/
def matchTickBlockAt (s : JsStr) : Option JsStr :=
  if isPrefixL [96, 96, 96] s then
    let rest := s.drop 3
    lazyToTicks (if rest.take 1 = [10] then rest.drop 1 else rest)
  else none

def matchTickBlock : JsStr → Option JsStr
  | [] => none
  | c :: r =>
    match matchTickBlockAt (c :: r) with
    | some w => some w
    | none => matchTickBlock r

/-- `/\x7b[\s\S]*\x7d/`: from the first `\x7b` of the text to the last
`\x7d` after it (greedy), if any. -/
def matchBraces (s : JsStr) : Option JsStr :=
  let rest := s.dropWhile (fun c => c ≠ 123)
  match rest with
  | [] => none
  | _ =>
    let upToLast := (rest.reverse.dropWhile (fun c => c ≠ 125)).reverse
    match upToLast with
    | [] => none
    | _ => some upToLast

/-- `ClaudeService.extractJSON(text)`. -/
def extractJSON (text : JsStr) : JsStr :=
  match matchJsonBlock text with
  | some cap => jsTrim cap
  | none =>
    match matchTickBlock text with
    | some cap => jsTrim cap
    | none =>
      match matchBraces text with
      | some m => m
      | none => text

/-- The verdict `ClaudeService.checkAccuracy` produces from a response
body: `JSON.parse(extractJSON(body))`, or — when that throws — the
caught fallback object with status `analyzing` and a `null`
suggestion. -/
def checkAccuracyResult (body : JsStr) : Json :=
  match parseJson (extractJSON body) with
  | some j => j
  | none =>
      Json.obj [(jsStr "status", Json.str (jsStr "analyzing")),
                (jsStr "issues", Json.arr []),
                (jsStr "strengths", Json.arr []),
                (jsStr "suggestion", Json.null)]

/-! ## Practice sheet state machine
(`src/src/components/PracticeSheetPane/PracticeSheetPane.jsx`,
`src/unnamed/part_006` TeachingPane, `src/unnamed/part_007` App)

`onStateUpdate` is `setAppState`, so the embedding threads each
update's result into the next read, following the spec's State
Management Flow (component update → global state → re-render); React's
render/closure timing is outside the model.  In every return object of
`validateField` the `tokenCount` member is absent, so
`handleFieldValidate` always adds the `|| 500` fallback. -/

/-- The seven practice-sheet fields.  The third field is the source key
`example`, a reserved word here, hence the quoted constructor name. -/
inductive FieldName where
  | definition : FieldName
  | mechanism : FieldName
  | «example» : FieldName
  | analogy : FieldName
  | why_matters : FieldName
  | misconception : FieldName
  | integration : FieldName
deriving DecidableEq, Fintype

/-- `fieldOrder[indexOf(f) + 1]` of `unlockNextField`, written as the
table it denotes over
`['definition','mechanism','example','analogy','why_matters','misconception','integration']`. -/
def nextField : FieldName → Option FieldName
  | .definition => some .mechanism
  | .mechanism => some .«example»
  | .«example» => some .analogy
  | .analogy => some .why_matters
  | .why_matters => some .misconception
  | .misconception => some .integration
  | .integration => none

/-- One attempt record pushed by `recordAttempt`. -/
structure Attempt where
  value : JsStr
  timestamp : Nat
  status : Option Json
  feedback : Option Json

/-- One field record (`none` in `status`/`feedback` is an absent /
`undefined` member). -/
structure FieldRec where
  value : JsStr
  status : Option Json
  feedback : Option Json
  unlocked : Bool
  attempts : List Attempt

/-- The application state as the practice-sheet handlers touch it. -/
structure PState where
  concept : Option JsStr
  modules : Json
  currentModule : Nat
  fields : FieldName → FieldRec
  tokenCount : Int
  startTime : Option Nat
  lastUpdate : Nat

/-- A fresh field record of `createInitialState` / `handleReset`. -/
def pInitField (u : Bool) : FieldRec :=
  ⟨[], some (Json.str (jsStr "pending")), none, u, []⟩

/-- `StateManager.createInitialState()` seen through the typed view:
only `definition` unlocked, everything `pending`. -/
def pInit (now : Nat) : PState :=
  { concept := none
    modules := Json.arr []
    currentModule := 0
    fields := fun f => pInitField (f = FieldName.definition)
    tokenCount := 0
    startTime := none
    lastUpdate := now }

/-- `state.concept` truthiness (`null` and the empty string are
falsy). -/
def conceptTruthy : Option JsStr → Bool
  | none => false
  | some c => c != []

/-- `updateFieldStatus(fieldName, status, feedback)`. -/
def updateFieldStatus (s : PState) (f : FieldName) (st fb : Option Json)
    (now : Nat) : PState :=
  { s with
    fields := fun g => if g = f then { s.fields f with status := st, feedback := fb }
      else s.fields g
    lastUpdate := now }

/-- `unlockNextField(fieldName)`. -/
def unlockNextField (s : PState) (f : FieldName) : PState :=
  match nextField f with
  | some nf =>
      { s with fields := fun g =>
          if g = nf then { s.fields nf with unlocked := true } else s.fields g }
  | none => s

/-- `recordAttempt(fieldName, value, validation)`. -/
def recordAttempt (s : PState) (f : FieldName) (v : JsStr)
    (st sg : Option Json) (now : Nat) : PState :=
  { s with
    fields := fun g =>
      if g = f then
        { s.fields f with attempts := (s.fields f).attempts ++ [⟨v, now, st, sg⟩] }
      else s.fields g }

/-- `handleFieldUpdate(fieldName, value)`. -/
def handleFieldUpdate (s : PState) (f : FieldName) (v : JsStr) (now : Nat) : PState :=
  { s with
    fields := fun g => if g = f then { s.fields f with value := v } else s.fields g
    lastUpdate := now }

/-- `handleFieldValidate(fieldName, value)` when `validateField`
resolves with a verdict whose status is `st` and suggestion `sg`
(every verdict lacks `tokenCount`, so `+ 500`). -/
def handleFieldValidate (s : PState) (f : FieldName) (v : JsStr)
    (st sg : Option Json) (now : Nat) : PState :=
  if jsTrim v = [] ∨ conceptTruthy s.concept = false then s
  else
    let s1 := updateFieldStatus s f (some (Json.str (jsStr "analyzing"))) (some Json.null) now
    let s2 := updateFieldStatus s1 f st sg now
    let s3 := if jsEqStr st (jsStr "approved") then unlockNextField s2 f else s2
    let s4 := recordAttempt s3 f v st sg now
    { s4 with tokenCount := s4.tokenCount + 500 }

/-- `handleFieldValidate` when `validateField` (or the request inside
it) throws: the catch arm. -/
def handleFieldValidateErr (s : PState) (f : FieldName) (v : JsStr) (now : Nat) : PState :=
  if jsTrim v = [] ∨ conceptTruthy s.concept = false then s
  else
    let s1 := updateFieldStatus s f (some (Json.str (jsStr "analyzing"))) (some Json.null) now
    updateFieldStatus s1 f (some (Json.str (jsStr "pending")))
      (some (Json.str (jsStr "Validation failed. Please try again."))) now

/-- `TeachingPane.handleStartLearning` state update (`m` the module
analysis, `r` the research token count). -/
def startLearning (s : PState) (c : JsStr) (m : Json) (r : Int) (now : Nat) : PState :=
  if jsTrim c = [] then s
  else
    { s with
      concept := some c
      modules := m
      currentModule := 0
      startTime := some now
      tokenCount := r }

/-- `TeachingPane.handleReset` state update. -/
def resetState (s : PState) : PState :=
  { s with
    concept := none
    modules := Json.arr []
    currentModule := 0
    fields := fun f => pInitField (f = FieldName.definition)
    tokenCount := 0
    startTime := none }

/-- One UI-driven state transition. -/
inductive PStep : PState → PState → Prop where
  | startConcept (s : PState) (c : JsStr) (m : Json) (r : Int) (now : Nat) :
      PStep s (startLearning s c m r now)
  | reset (s : PState) : PStep s (resetState s)
  | editValue (s : PState) (f : FieldName) (v : JsStr) (now : Nat) :
      PStep s (handleFieldUpdate s f v now)
  | validate (s : PState) (f : FieldName) (v : JsStr) (st sg : Option Json) (now : Nat) :
      PStep s (handleFieldValidate s f v st sg now)
  | validateErr (s : PState) (f : FieldName) (v : JsStr) (now : Nat) :
      PStep s (handleFieldValidateErr s f v now)

/-- Reachable from a fresh session by UI transitions. -/
def PReachable (s : PState) : Prop :=
  ∃ n0, Relation.ReflTransGen PStep (pInit n0) s

theorem nextField_ne_self : ∀ f g : FieldName, nextField f = some g → g ≠ f := by decide

theorem nextField_inj : ∀ a b c : FieldName,
    nextField a = some c → nextField b = some c → a = b := by decide

theorem nextField_not_definition : ∀ q : FieldName,
    nextField q ≠ some FieldName.definition := by decide

theorem jsEqStr_eq (x : Option Json) (t : JsStr) (h : jsEqStr x t = true) :
    x = some (Json.str t) := by
  match x with
  | none => exact absurd h (by simp [jsEqStr])
  | some (Json.str u) =>
      simp only [jsEqStr, beq_iff_eq] at h
      rw [h]
  | some Json.null | some (Json.bool _) | some (Json.num _)
  | some (Json.arr _) | some (Json.obj _) => exact absurd h (by simp [jsEqStr])

theorem hv_unlocked (s : PState) (f : FieldName) (v : JsStr) (st sg : Option Json)
    (now : Nat) (g : FieldName)
    (hg : ¬(jsTrim v = [] ∨ conceptTruthy s.concept = false)) :
    ((handleFieldValidate s f v st sg now).fields g).unlocked =
      ((s.fields g).unlocked ||
        (jsEqStr st (jsStr "approved") && decide (nextField f = some g))) := by
  unfold handleFieldValidate
  rw [if_neg hg]
  unfold recordAttempt unlockNextField updateFieldStatus
  by_cases ha : jsEqStr st (jsStr "approved") = true
  · cases hn : nextField f with
    | none => by_cases hgf : g = f <;> simp [hn, ha, hgf]
    | some nf =>
        have hnff : nf ≠ f := nextField_ne_self f nf hn
        have hfnf : f ≠ nf := fun e => hnff e.symm
        by_cases hgf : g = f
        · subst hgf
          simp [hn, ha, hfnf, hnff]
        · by_cases hgn : g = nf
          · subst hgn
            simp [hn, ha, hgf, hfnf, hnff]
          · simp [hn, ha, hgf, hgn, Ne.symm hgn]
  · rw [Bool.not_eq_true] at ha
    by_cases hgf : g = f <;> simp [ha, hgf]

theorem hv_field_main (s : PState) (f : FieldName) (v : JsStr) (st sg : Option Json)
    (now : Nat)
    (hg : ¬(jsTrim v = [] ∨ conceptTruthy s.concept = false)) :
    ((handleFieldValidate s f v st sg now).fields f).status = st ∧
    ((handleFieldValidate s f v st sg now).fields f).feedback = sg ∧
    ((handleFieldValidate s f v st sg now).fields f).attempts =
      (s.fields f).attempts ++ [⟨v, now, st, sg⟩] := by
  unfold handleFieldValidate
  rw [if_neg hg]
  unfold recordAttempt unlockNextField updateFieldStatus
  by_cases ha : jsEqStr st (jsStr "approved") = true
  · cases hn : nextField f with
    | none => simp [hn, ha]
    | some nf =>
        have hne : ¬ (f = nf) := fun e => nextField_ne_self f nf hn e.symm
        simp [hn, ha, hne]
  · rw [Bool.not_eq_true] at ha
    simp [ha]

theorem hve_field (s : PState) (f : FieldName) (v : JsStr) (now : Nat)
    (hg : ¬(jsTrim v = [] ∨ conceptTruthy s.concept = false)) :
    ((handleFieldValidateErr s f v now).fields f).status =
      some (Json.str (jsStr "pending")) ∧
    ((handleFieldValidateErr s f v now).fields f).feedback =
      some (Json.str (jsStr "Validation failed. Please try again.")) ∧
    ((handleFieldValidateErr s f v now).fields f).attempts = (s.fields f).attempts := by
  unfold handleFieldValidateErr
  rw [if_neg hg]
  unfold updateFieldStatus
  simp

/-- C7: over the fixed seven-field order, `definition` is unlocked from
session creation (all other fields locked), and in every transition
from a reachable state, a field's `unlocked` flag can flip from false
to true only if its immediate predecessor's status has just been set
to `approved`. -/
theorem C7_unlock_ordering :
    (∀ n0, ((pInit n0).fields FieldName.definition).unlocked = true ∧
      ∀ f : FieldName, f ≠ FieldName.definition →
        ((pInit n0).fields f).unlocked = false) ∧
    ∀ s s' : PState, PReachable s → PStep s s' → ∀ pf f : FieldName,
      nextField pf = some f → (s.fields f).unlocked = false →
      (s'.fields f).unlocked = true →
      (s'.fields pf).status = some (Json.str (jsStr "approved")) := by
  constructor
  · intro n0
    constructor
    · simp [pInit, pInitField]
    · intro f hf
      simp [pInit, pInitField, hf]
  · intro s s' _ hstep pf f hnf hfalse htrue
    cases hstep with
    | startConcept c m r now =>
        unfold startLearning at htrue
        split at htrue <;> simp_all
    | reset =>
        unfold resetState at htrue
        simp [pInitField] at htrue
        exact absurd (htrue ▸ hnf) (nextField_not_definition pf)
    | editValue f2 v now =>
        unfold handleFieldUpdate at htrue
        by_cases hgf : f = f2 <;> simp [hgf] at htrue <;> simp_all
    | validateErr f2 v now =>
        unfold handleFieldValidateErr updateFieldStatus at htrue
        split at htrue
        · simp_all
        · by_cases hgf : f = f2 <;> simp [hgf] at htrue <;> simp_all
    | validate f2 v st sg now =>
        by_cases hguard : jsTrim v = [] ∨ conceptTruthy s.concept = false
        · unfold handleFieldValidate at htrue
          rw [if_pos hguard] at htrue
          simp_all
        · rw [hv_unlocked _ f2 v st sg now f hguard, hfalse, Bool.false_or,
            Bool.and_eq_true, decide_eq_true_eq] at htrue
          obtain ⟨happr, hnext⟩ := htrue
          have hpf : pf = f2 := nextField_inj pf f2 f hnf hnext
          subst hpf
          rw [(hv_field_main _ pf v st sg now hguard).1, jsEqStr_eq st _ happr]

theorem C7_unlock_ordering_witness :
    ((pInit 0).fields FieldName.definition).unlocked = true ∧
    ((handleFieldValidate (startLearning (pInit 0) (jsStr "c") (Json.arr []) 0 1)
        FieldName.definition (jsStr "x")
        (some (Json.str (jsStr "approved"))) (some Json.null) 2).fields
      FieldName.definition).status = some (Json.str (jsStr "approved")) :=
  ⟨(C7_unlock_ordering.1 0).1,
    C7_unlock_ordering.2
      (startLearning (pInit 0) (jsStr "c") (Json.arr []) 0 1)
      (handleFieldValidate (startLearning (pInit 0) (jsStr "c") (Json.arr []) 0 1)
        FieldName.definition (jsStr "x")
        (some (Json.str (jsStr "approved"))) (some Json.null) 2)
      ⟨0, Relation.ReflTransGen.single
        (PStep.startConcept (pInit 0) (jsStr "c") (Json.arr []) 0 1)⟩
      (PStep.validate _ FieldName.definition (jsStr "x")
        (some (Json.str (jsStr "approved"))) (some Json.null) 2)
      FieldName.definition FieldName.mechanism rfl (by decide) (by decide)⟩

theorem parseJson_oops : parseJson (extractJSON (jsStr "oops")) = none := by
  rw [show extractJSON (jsStr "oops") = [111, 111, 112, 115] from rfl]
  simp +decide [parseJson, parseValue, skipWs_cons]

/-- C6, counterexample: a response body (`oops`) that is not parseable
into the structured verdict leaves the field's status at `analyzing`
(not `pending`), attaches no retry message, and appends an attempt —
the opposite of the claimed reversion. -/
theorem C6_counterexample :
    checkAccuracyResult (jsStr "oops") =
      Json.obj [(jsStr "status", Json.str (jsStr "analyzing")),
                (jsStr "issues", Json.arr []),
                (jsStr "strengths", Json.arr []),
                (jsStr "suggestion", Json.null)] ∧
    ((handleFieldValidate (startLearning (pInit 0) (jsStr "c") (Json.arr []) 0 1)
        FieldName.definition (jsStr "x")
        (objGet (checkAccuracyResult (jsStr "oops")) (jsStr "status"))
        (objGet (checkAccuracyResult (jsStr "oops")) (jsStr "suggestion")) 2).fields
      FieldName.definition).status = some (Json.str (jsStr "analyzing")) ∧
    ¬ ((handleFieldValidate (startLearning (pInit 0) (jsStr "c") (Json.arr []) 0 1)
        FieldName.definition (jsStr "x")
        (objGet (checkAccuracyResult (jsStr "oops")) (jsStr "status"))
        (objGet (checkAccuracyResult (jsStr "oops")) (jsStr "suggestion")) 2).fields
      FieldName.definition).status = some (Json.str (jsStr "pending")) ∧
    ((handleFieldValidate (startLearning (pInit 0) (jsStr "c") (Json.arr []) 0 1)
        FieldName.definition (jsStr "x")
        (objGet (checkAccuracyResult (jsStr "oops")) (jsStr "status"))
        (objGet (checkAccuracyResult (jsStr "oops")) (jsStr "suggestion")) 2).fields
      FieldName.definition).attempts.length = 1 := by
  have hacc : checkAccuracyResult (jsStr "oops") =
      Json.obj [(jsStr "status", Json.str (jsStr "analyzing")),
                (jsStr "issues", Json.arr []),
                (jsStr "strengths", Json.arr []),
                (jsStr "suggestion", Json.null)] := by
    unfold checkAccuracyResult
    rw [parseJson_oops]
  refine ⟨hacc, ?_, ?_, ?_⟩ <;> rw [hacc]
  · rfl
  · show ¬ (some (Json.str (jsStr "analyzing")) = some (Json.str (jsStr "pending")))
    simp only [Option.some.injEq, Json.str.injEq]
    decide
  · rfl

/-- C6 (amended): when the response body is not parseable into the
structured verdict, `checkAccuracy` swallows the error and returns the
fallback verdict with status `analyzing` and `null` suggestion, so the
field's status is set to `analyzing` (not reverted to `pending`), the
feedback is `null` (no retry message), and an attempt IS appended.
The claimed pending-plus-retry-message behaviour, with no attempt
recorded, occurs only in the catch arm of `handleFieldValidate`, which
runs when the request itself throws — not on a malformed body. -/
theorem C6_malformed_verdict (s : PState) (f : FieldName) (v body : JsStr) (now : Nat)
    (hg : ¬(jsTrim v = [] ∨ conceptTruthy s.concept = false))
    (hp : parseJson (extractJSON body) = none) :
    objGet (checkAccuracyResult body) (jsStr "status") =
      some (Json.str (jsStr "analyzing")) ∧
    objGet (checkAccuracyResult body) (jsStr "suggestion") = some Json.null ∧
    ((handleFieldValidate s f v
        (objGet (checkAccuracyResult body) (jsStr "status"))
        (objGet (checkAccuracyResult body) (jsStr "suggestion")) now).fields f).status =
      some (Json.str (jsStr "analyzing")) ∧
    ((handleFieldValidate s f v
        (objGet (checkAccuracyResult body) (jsStr "status"))
        (objGet (checkAccuracyResult body) (jsStr "suggestion")) now).fields f).feedback =
      some Json.null ∧
    ((handleFieldValidate s f v
        (objGet (checkAccuracyResult body) (jsStr "status"))
        (objGet (checkAccuracyResult body) (jsStr "suggestion")) now).fields f).attempts.length =
      (s.fields f).attempts.length + 1 ∧
    ((handleFieldValidateErr s f v now).fields f).status =
      some (Json.str (jsStr "pending")) ∧
    ((handleFieldValidateErr s f v now).fields f).feedback =
      some (Json.str (jsStr "Validation failed. Please try again.")) ∧
    ((handleFieldValidateErr s f v now).fields f).attempts = (s.fields f).attempts := by
  have hacc : checkAccuracyResult body =
      Json.obj [(jsStr "status", Json.str (jsStr "analyzing")),
                (jsStr "issues", Json.arr []),
                (jsStr "strengths", Json.arr []),
                (jsStr "suggestion", Json.null)] := by
    unfold checkAccuracyResult
    rw [hp]
  have hst : objGet (checkAccuracyResult body) (jsStr "status") =
      some (Json.str (jsStr "analyzing")) := by rw [hacc]; rfl
  have hsg : objGet (checkAccuracyResult body) (jsStr "suggestion") = some Json.null := by
    rw [hacc]; rfl
  obtain ⟨h1, h2, h3⟩ := hv_field_main s f v
    (objGet (checkAccuracyResult body) (jsStr "status"))
    (objGet (checkAccuracyResult body) (jsStr "suggestion")) now hg
  obtain ⟨e1, e2, e3⟩ := hve_field s f v now hg
  exact ⟨hst, hsg, by rw [h1, hst], by rw [h2, hsg], by rw [h3]; simp, e1, e2, e3⟩

theorem C6_malformed_verdict_witness :
    objGet (checkAccuracyResult (jsStr "oops")) (jsStr "status") =
      some (Json.str (jsStr "analyzing")) ∧
    objGet (checkAccuracyResult (jsStr "oops")) (jsStr "suggestion") = some Json.null ∧
    ((handleFieldValidate (startLearning (pInit 0) (jsStr "c") (Json.arr []) 0 1)
        FieldName.mechanism (jsStr "y")
        (objGet (checkAccuracyResult (jsStr "oops")) (jsStr "status"))
        (objGet (checkAccuracyResult (jsStr "oops")) (jsStr "suggestion")) 3).fields
      FieldName.mechanism).status = some (Json.str (jsStr "analyzing")) ∧
    ((handleFieldValidate (startLearning (pInit 0) (jsStr "c") (Json.arr []) 0 1)
        FieldName.mechanism (jsStr "y")
        (objGet (checkAccuracyResult (jsStr "oops")) (jsStr "status"))
        (objGet (checkAccuracyResult (jsStr "oops")) (jsStr "suggestion")) 3).fields
      FieldName.mechanism).feedback = some Json.null ∧
    ((handleFieldValidate (startLearning (pInit 0) (jsStr "c") (Json.arr []) 0 1)
        FieldName.mechanism (jsStr "y")
        (objGet (checkAccuracyResult (jsStr "oops")) (jsStr "status"))
        (objGet (checkAccuracyResult (jsStr "oops")) (jsStr "suggestion")) 3).fields
      FieldName.mechanism).attempts.length =
      (((startLearning (pInit 0) (jsStr "c") (Json.arr []) 0 1).fields
        FieldName.mechanism).attempts).length + 1 ∧
    ((handleFieldValidateErr (startLearning (pInit 0) (jsStr "c") (Json.arr []) 0 1)
        FieldName.mechanism (jsStr "y") 3).fields FieldName.mechanism).status =
      some (Json.str (jsStr "pending")) ∧
    ((handleFieldValidateErr (startLearning (pInit 0) (jsStr "c") (Json.arr []) 0 1)
        FieldName.mechanism (jsStr "y") 3).fields FieldName.mechanism).feedback =
      some (Json.str (jsStr "Validation failed. Please try again.")) ∧
    ((handleFieldValidateErr (startLearning (pInit 0) (jsStr "c") (Json.arr []) 0 1)
        FieldName.mechanism (jsStr "y") 3).fields FieldName.mechanism).attempts =
      ((startLearning (pInit 0) (jsStr "c") (Json.arr []) 0 1).fields
        FieldName.mechanism).attempts :=
  C6_malformed_verdict (startLearning (pInit 0) (jsStr "c") (Json.arr []) 0 1)
    FieldName.mechanism (jsStr "y") (jsStr "oops") 3 (by decide) parseJson_oops
